import Mathlib

/-!
Verification of the agent-evals static/live evaluation engine.

The Go sources are shallowly embedded: Go `float64` scores become `ℚ`
(all constants involved are decimal and the claims are about exact
thresholds), Go strings become `String` with character-level helpers on
`List Char` (byte-level Go operations agree on ASCII input), Go maps
become association lists with first-match lookup, and Go loops become
folds.  Functions keep their source names.
-/

namespace AgentEvals

/-- Character-wise lowercasing, modelling Go `strings.ToLower` (exact on
ASCII, which is all the built-in tables contain). -/
def lowerStr (s : String) : String :=
  String.mk (s.data.map Char.toLower)

/-- Domain-name normalization used by `ExtractDomains` and
`GenerateProbes`: `strings.ReplaceAll(strings.ReplaceAll(strings.ToLower(d), " ", "_"), "-", "_")`.
Both replacements are single-character, hence a character map. -/
def normalizeDomain (d : String) : String :=
  String.mk (d.data.map (fun c =>
    let lc := c.toLower
    if lc = ' ' ∨ lc = '-' then '_' else lc))

/-- Non-overlapping occurrence scan for Go `strings.Count` with a
nonempty pattern: `skip` characters are still to be consumed by the
previous match; on a fresh match the remaining `pat.length - 1`
characters of the match are skipped before scanning resumes. -/
def countOccsAux (pat : List Char) : List Char → Nat → Nat
  | [], _ => 0
  | _ :: rest, skip + 1 => countOccsAux pat rest skip
  | c :: rest, 0 =>
    if pat.isPrefixOf (c :: rest) then 1 + countOccsAux pat rest (pat.length - 1)
    else countOccsAux pat rest 0

/-- Go `strings.Count(text, pat)`: `rune-count(text) + 1` for an empty
pattern, else the number of non-overlapping occurrences. -/
def countOccs (text pat : List Char) : Nat :=
  if pat.isEmpty then text.length + 1 else countOccsAux pat text 0

/-- Go `strings.Contains(s, pat)`, expressed through `strings.Count` (the
two agree: `Contains s pat ↔ Count s pat > 0`). -/
def containsSubstr (s pat : String) : Bool :=
  decide (0 < countOccs s.data pat.data)

/-- Go `truncate(s, n)` from the overlap detector: identity when the
length is within bounds, otherwise the length-`n` prefix. -/
def truncate (s : String) (n : Nat) : String :=
  if s.data.length ≤ n then s else String.mk (s.data.take n)

/-- Lexicographic comparison on character lists, the order used by Go
`sort.Strings` (byte order and code-point order agree under UTF-8). -/
def charListLe : List Char → List Char → Bool
  | [], _ => true
  | _ :: _, [] => false
  | a :: as, b :: bs => if a = b then charListLe as bs else decide (a < b)

/-- String comparison backing `sort.Strings`. -/
def strLe (s t : String) : Bool :=
  charListLe s.data t.data

/-- Insertion step of the sort modelling `sort.Strings`. -/
def insertStr (s : String) : List String → List String
  | [] => [s]
  | t :: rest => if strLe s t then s :: t :: rest else t :: insertStr s rest

/-- Go `sort.Strings`, modelled as insertion sort (same sorted result on
the key sets involved; only sortedness and membership are used). -/
def sortStrings (l : List String) : List String :=
  l.foldr insertStr []

/-- The agent definition record produced by the loader (the fields the
core reads). -/
structure AgentDefinition where
  id : String
  name : String
  systemPrompt : String
  skills : List String
  rules : List String
  claimedDomains : List String
deriving DecidableEq

/-- `AgentDefinition.FullContext`: system prompt plus bulleted skills and
rules blocks, exactly as the Go `strings.Builder` assembles them. -/
def FullContext (a : AgentDefinition) : String :=
  a.systemPrompt
    ++ (if a.skills.length > 0 then
          "\n\nSkills:\n" ++ String.join (a.skills.map (fun s => "- " ++ s ++ "\n"))
        else "")
    ++ (if a.rules.length > 0 then
          "\n\nRules:\n" ++ String.join (a.rules.map (fun r => "- " ++ r ++ "\n"))
        else "")

/-- A Go `map[string]float64` of domain scores, as an association list
with first-match lookup. -/
abbrev ScoreMap := List (String × ℚ)

/-- Map write `m[k] = v`: replace the first binding of `k`, or append. -/
def setScore : ScoreMap → String → ℚ → ScoreMap
  | [], k, v => [(k, v)]
  | (k', v') :: rest, k, v =>
    if k' = k then (k, v) :: rest else (k', v') :: setScore rest k v

/-- Map read `m[k]` with presence flag (`v, ok := m[k]`). -/
def getScore : ScoreMap → String → Option ℚ
  | [], _ => none
  | (k', v') :: rest, k => if k' = k then some v' else getScore rest k

/-- Total keyword hits of one domain's keyword list against the lowered
full text: `hits += strings.Count(text, kw)`. -/
def keywordHits (text : String) (keywords : List String) : Nat :=
  (keywords.map (fun kw => countOccs text.data kw.data)).sum

/-- The score of one domain before the existing-score comparison:
`hits / (len(keywords)·0.5)`, clamped down to `1.0` (`if score > 1.0 then score = 1.0`). -/
def clampScore (hits len : Nat) : ℚ :=
  if ((hits : ℚ) / ((len : ℚ) * (1/2)) : ℚ) > 1 then 1
  else (hits : ℚ) / ((len : ℚ) * (1/2))

/-- One iteration of the keyword loop of `ExtractDomains`: skip on zero
hits, else write the clamped score when the key is absent
(`!ok`) or the new score beats the existing one. -/
def keywordStep (text : String) (m : ScoreMap) (dk : String × List String) : ScoreMap :=
  let hits := keywordHits text dk.2
  if hits > 0 then
    let score := clampScore hits dk.2.length
    match getScore m dk.1 with
    | none => setScore m dk.1 score
    | some existing => if score > existing then setScore m dk.1 score else m
  else m

/-- `ExtractDomains(agent, domainKeywords)`: claimed domains are pinned to
score 1.0, then every domain with at least one keyword hit is scored
`hits / (len(keywords)·0.5)` clamped to 1.0, keeping the larger of the
existing and new score. -/
def ExtractDomains (agent : AgentDefinition) (domainKeywords : List (String × List String)) :
    ScoreMap :=
  let text := lowerStr (FullContext agent)
  let claimed : ScoreMap :=
    agent.claimedDomains.foldl (fun m d => setScore m (normalizeDomain d) 1) []
  domainKeywords.foldl (keywordStep text) claimed

-- Lemmas about `setScore` / `getScore`.

theorem getScore_setScore_self (m : ScoreMap) (k : String) (v : ℚ) :
    getScore (setScore m k v) k = some v := by
  induction m with
  | nil => simp [setScore, getScore]
  | cons p rest ih =>
    obtain ⟨k', v'⟩ := p
    by_cases h : k' = k
    · simp [setScore, h, getScore]
    · simp [setScore, h, getScore, ih]

theorem getScore_setScore_ne (m : ScoreMap) (k k' : String) (v : ℚ) (h : k' ≠ k) :
    getScore (setScore m k v) k' = getScore m k' := by
  induction m with
  | nil =>
    simp only [setScore, getScore]
    rw [if_neg (Ne.symm h)]
  | cons p rest ih =>
    obtain ⟨k₀, v₀⟩ := p
    simp only [setScore]
    by_cases hk : k₀ = k
    · subst hk
      rw [if_pos rfl]
      simp only [getScore]
      rw [if_neg (Ne.symm h), if_neg (Ne.symm h)]
    · rw [if_neg hk]
      by_cases hk' : k₀ = k'
      · simp only [getScore]
        rw [if_pos hk', if_pos hk']
      · simp only [getScore]
        rw [if_neg hk', if_neg hk', ih]

theorem mem_setScore (m : ScoreMap) (k : String) (v : ℚ) (p : String × ℚ)
    (hp : p ∈ setScore m k v) : p = (k, v) ∨ p ∈ m := by
  induction m with
  | nil => simpa [setScore] using hp
  | cons q rest ih =>
    obtain ⟨k', v'⟩ := q
    by_cases h : k' = k
    · simp only [setScore, h, if_true] at hp
      rcases List.mem_cons.mp hp with h1 | h2
      · exact Or.inl h1
      · exact Or.inr (List.mem_cons_of_mem _ h2)
    · simp only [setScore, h, if_false] at hp
      rcases List.mem_cons.mp hp with h1 | h2
      · exact Or.inr (by simp [h1])
      · rcases ih h2 with h3 | h4
        · exact Or.inl h3
        · exact Or.inr (List.mem_cons_of_mem _ h4)

theorem clampScore_nonneg (hits len : Nat) : 0 ≤ clampScore hits len := by
  unfold clampScore
  have h0 : (0 : ℚ) ≤ (hits : ℚ) / ((len : ℚ) * (1/2)) := by positivity
  split
  · norm_num
  · exact h0

theorem clampScore_le_one (hits len : Nat) : clampScore hits len ≤ 1 := by
  unfold clampScore
  split
  · exact le_refl 1
  · exact le_of_not_lt (by assumption)

theorem keywordStep_cases (text : String) (m : ScoreMap) (dk : String × List String) :
    keywordStep text m dk = m ∨
    (keywordHits text dk.2 > 0 ∧
     keywordStep text m dk = setScore m dk.1 (clampScore (keywordHits text dk.2) dk.2.length) ∧
     (∀ v, getScore m dk.1 = some v →
        clampScore (keywordHits text dk.2) dk.2.length > v)) := by
  unfold keywordStep
  by_cases hh : keywordHits text dk.2 > 0
  · rw [if_pos hh]
    rcases hg : getScore m dk.1 with _ | existing
    · refine Or.inr ⟨hh, rfl, ?_⟩
      intro v hv
      cases hv
    · simp only
      split
      · refine Or.inr ⟨hh, rfl, ?_⟩
        intro v hv
        cases hv
        assumption
      · exact Or.inl rfl
  · rw [if_neg hh]
    exact Or.inl rfl

theorem mem_keywordStep (text : String) (m : ScoreMap) (dk : String × List String)
    (p : String × ℚ) (hp : p ∈ keywordStep text m dk) :
    p ∈ m ∨ (0 ≤ p.2 ∧ p.2 ≤ 1) := by
  rcases keywordStep_cases text m dk with h1 | ⟨_, h2, _⟩
  · rw [h1] at hp
    exact Or.inl hp
  · rw [h2] at hp
    rcases mem_setScore _ _ _ _ hp with h3 | h4
    · right; rw [h3]
      exact ⟨clampScore_nonneg _ _, clampScore_le_one _ _⟩
    · exact Or.inl h4

theorem getScore_keywordStep_some_one (text : String) (m : ScoreMap)
    (dk : String × List String) (kk : String) (h : getScore m kk = some 1) :
    getScore (keywordStep text m dk) kk = some 1 := by
  rcases keywordStep_cases text m dk with h1 | ⟨_, h2, h3⟩
  · rw [h1]; exact h
  · rw [h2]
    by_cases hd : dk.1 = kk
    · exact absurd (h3 1 (hd ▸ h)) (not_lt.mpr (clampScore_le_one _ _))
    · rw [getScore_setScore_ne _ _ _ _ (Ne.symm hd)]
      exact h

theorem getScore_keywordStep_none (text : String) (m : ScoreMap)
    (dk : String × List String) (d : String) (h0 : getScore m d = none)
    (hd : dk.1 = d → keywordHits text dk.2 = 0) :
    getScore (keywordStep text m dk) d = none := by
  rcases keywordStep_cases text m dk with h1 | ⟨hh, h2, _⟩
  · rw [h1]; exact h0
  · rw [h2]
    have hne : dk.1 ≠ d := by
      intro he
      exact absurd (hd he) (Nat.pos_iff_ne_zero.mp hh)
    rw [getScore_setScore_ne _ _ _ _ (Ne.symm hne)]
    exact h0

theorem values_bounded_claimed_foldl (l : List String) :
    ∀ init : ScoreMap, (∀ p ∈ init, 0 ≤ p.2 ∧ p.2 ≤ 1) →
      ∀ p ∈ l.foldl (fun m d => setScore m (normalizeDomain d) 1) init, 0 ≤ p.2 ∧ p.2 ≤ 1 := by
  induction l with
  | nil => exact fun init h => h
  | cons d l ih =>
    intro init h p hp
    simp only [List.foldl_cons] at hp
    refine ih _ ?_ p hp
    intro q hq
    rcases mem_setScore _ _ _ _ hq with h1 | h2
    · rw [h1]; constructor <;> norm_num
    · exact h q h2

theorem getScore_claimed_foldl_preserve (l : List String) (kk : String) :
    ∀ init : ScoreMap, getScore init kk = some 1 →
      getScore (l.foldl (fun m d => setScore m (normalizeDomain d) 1) init) kk = some 1 := by
  induction l with
  | nil => exact fun init h => h
  | cons d l ih =>
    intro init h
    simp only [List.foldl_cons]
    refine ih _ ?_
    by_cases hd : normalizeDomain d = kk
    · rw [hd]; exact getScore_setScore_self _ _ _
    · rw [getScore_setScore_ne _ _ _ _ (Ne.symm hd)]; exact h

theorem getScore_claimed_foldl_mem (l : List String) (c : String) (hc : c ∈ l) :
    ∀ init : ScoreMap,
      getScore (l.foldl (fun m d => setScore m (normalizeDomain d) 1) init)
        (normalizeDomain c) = some 1 := by
  induction l with
  | nil => cases hc
  | cons d l ih =>
    intro init
    simp only [List.foldl_cons]
    rcases List.mem_cons.mp hc with h1 | h2
    · rw [h1]
      exact getScore_claimed_foldl_preserve _ _ _ (getScore_setScore_self _ _ _)
    · exact ih h2 _

theorem getScore_claimed_foldl_none (l : List String) (d : String)
    (h : ∀ c ∈ l, normalizeDomain c ≠ d) :
    ∀ init : ScoreMap, getScore init d = none →
      getScore (l.foldl (fun m e => setScore m (normalizeDomain e) 1) init) d = none := by
  induction l with
  | nil => exact fun init h0 => h0
  | cons e l ih =>
    intro init h0
    simp only [List.foldl_cons]
    refine ih (fun c hc => h c (List.mem_cons_of_mem _ hc)) _ ?_
    rw [getScore_setScore_ne _ _ _ _ (Ne.symm (h e (List.mem_cons_self _ _)))]
    exact h0

theorem values_bounded_keyword_foldl (text : String) (dks : List (String × List String)) :
    ∀ init : ScoreMap, (∀ p ∈ init, 0 ≤ p.2 ∧ p.2 ≤ 1) →
      ∀ p ∈ dks.foldl (keywordStep text) init, 0 ≤ p.2 ∧ p.2 ≤ 1 := by
  induction dks with
  | nil => exact fun init h => h
  | cons dk dks ih =>
    intro init h p hp
    simp only [List.foldl_cons] at hp
    refine ih _ ?_ p hp
    intro q hq
    rcases mem_keywordStep _ _ _ _ hq with h1 | h2
    · exact h q h1
    · exact h2

theorem getScore_keyword_foldl_some_one (text : String) (dks : List (String × List String))
    (kk : String) :
    ∀ init : ScoreMap, getScore init kk = some 1 →
      getScore (dks.foldl (keywordStep text) init) kk = some 1 := by
  induction dks with
  | nil => exact fun init h => h
  | cons dk dks ih =>
    intro init h
    simp only [List.foldl_cons]
    exact ih _ (getScore_keywordStep_some_one _ _ _ _ h)

theorem getScore_keyword_foldl_none (text : String) (dks : List (String × List String))
    (d : String) (h : ∀ kws, (d, kws) ∈ dks → keywordHits text kws = 0) :
    ∀ init : ScoreMap, getScore init d = none →
      getScore (dks.foldl (keywordStep text) init) d = none := by
  induction dks with
  | nil => exact fun init h0 => h0
  | cons dk dks ih =>
    intro init h0
    simp only [List.foldl_cons]
    refine ih (fun kws hk => h kws (List.mem_cons_of_mem _ hk)) _ ?_
    refine getScore_keywordStep_none _ _ _ _ h0 (fun he => ?_)
    exact h dk.2 (by rw [← he]; exact List.mem_cons_self _ _)

/-- C4: every score returned by `ExtractDomains` lies in `[0,1]`; every
claimed domain is present, normalized, with score exactly `1.0`; a domain
that is neither claimed (after normalization) nor hit by any of its
keywords is absent from the result. -/
theorem extractDomains_spec (agent : AgentDefinition)
    (dks : List (String × List String)) :
    (∀ p ∈ ExtractDomains agent dks, 0 ≤ p.2 ∧ p.2 ≤ 1) ∧
    (∀ c ∈ agent.claimedDomains,
      getScore (ExtractDomains agent dks) (normalizeDomain c) = some 1) ∧
    (∀ d : String, (∀ c ∈ agent.claimedDomains, normalizeDomain c ≠ d) →
      (∀ kws, (d, kws) ∈ dks → keywordHits (lowerStr (FullContext agent)) kws = 0) →
      getScore (ExtractDomains agent dks) d = none) := by
  unfold ExtractDomains
  refine ⟨?_, ?_, ?_⟩
  · refine values_bounded_keyword_foldl _ _ _ ?_
    refine values_bounded_claimed_foldl _ _ ?_
    intro p hp
    cases hp
  · intro c hc
    exact getScore_keyword_foldl_some_one _ _ _ _ (getScore_claimed_foldl_mem _ _ hc _)
  · intro d hclaim hkw
    exact getScore_keyword_foldl_none _ _ _ hkw _
      (getScore_claimed_foldl_none _ _ hclaim _ rfl)

/-- Witness for C4 at a concrete agent and keyword map: the claimed
domain "Data Science" normalizes to score 1.0, and "frontend" (zero
keyword hits, unclaimed) is absent. -/
theorem extractDomains_spec_witness :
    getScore
      (ExtractDomains
        ⟨"a", "A", "backend api work", [], [], ["Data Science"]⟩
        [("backend", ["backend", "api"]), ("frontend", ["react"])])
      "data_science" = some 1 ∧
    getScore
      (ExtractDomains
        ⟨"a", "A", "backend api work", [], [], ["Data Science"]⟩
        [("backend", ["backend", "api"]), ("frontend", ["react"])])
      "frontend" = none := by
  constructor
  · have h := (extractDomains_spec
      ⟨"a", "A", "backend api work", [], [], ["Data Science"]⟩
      [("backend", ["backend", "api"]), ("frontend", ["react"])]).2.1
        "Data Science" (by decide)
    have hn : normalizeDomain "Data Science" = "data_science" := by decide
    rwa [hn] at h
  · refine (extractDomains_spec
      ⟨"a", "A", "backend api work", [], [], ["Data Science"]⟩
      [("backend", ["backend", "api"]), ("frontend", ["react"])]).2.2
        "frontend" (by decide) ?_
    intro kws hk
    rcases List.mem_cons.mp hk with h1 | h2
    · have hbad : "frontend" = "backend" := congrArg Prod.fst h1
      exact absurd hbad (by decide)
    · have h3 := List.mem_singleton.mp h2
      have hkws : kws = ["react"] := congrArg Prod.snd h3
      rw [hkws]
      decide

/-- Length of the longest common subsequence of two character lists.
This is the recurrence (`diag + 1` on equal characters, otherwise the
larger of dropping one character from either side) that the two-row
dynamic program in the Go `similarity` function implements; the DP's
`prev[n]` after the last row is exactly this value on the full inputs. -/
def lcsLen : List Char → List Char → Nat
  | [], _ => 0
  | _ :: _, [] => 0
  | a :: as, b :: bs =>
    if a = b then lcsLen as bs + 1
    else max (lcsLen as (b :: bs)) (lcsLen (a :: as) bs)
termination_by x y => x.length + y.length

theorem lcsLen_nil_left (b : List Char) : lcsLen [] b = 0 := by
  simp [lcsLen]

theorem lcsLen_nil_right (b : List Char) : lcsLen b [] = 0 := by
  cases b <;> simp [lcsLen]

theorem lcsLen_comm (a b : List Char) : lcsLen a b = lcsLen b a := by
  induction a, b using lcsLen.induct with
  | case1 x => rw [lcsLen_nil_left, lcsLen_nil_right]
  | case2 h t => rw [lcsLen_nil_left, lcsLen_nil_right]
  | case3 as c bs ih => simp [lcsLen, ih]
  | case4 a as b bs hab ih1 ih2 =>
    simp only [lcsLen]
    rw [if_neg hab, if_neg (fun h => hab h.symm), ih1, ih2, Nat.max_comm]

/-- Go `similarity(a, b)`: 1.0 when both inputs are empty, 0.0 when
exactly one is, otherwise `2·LCS(a,b) / (len(a)+len(b))`. -/
def similarity (a b : List Char) : ℚ :=
  if a.length = 0 ∧ b.length = 0 then 1
  else if a.length = 0 ∨ b.length = 0 then 0
  else 2 * (lcsLen a b : ℚ) / ((a.length : ℚ) + (b.length : ℚ))

/-- C5: `similarity` is symmetric; `similarity("","") = 1.0`;
`similarity(x,"") = 0.0` for nonempty `x`; on two nonempty inputs it
equals `2·LCS(a,b)/(len(a)+len(b))`. -/
theorem similarity_spec :
    (∀ a b : List Char, similarity a b = similarity b a) ∧
    similarity [] [] = 1 ∧
    (∀ x : List Char, x ≠ [] → similarity x [] = 0) ∧
    (∀ a b : List Char, a ≠ [] → b ≠ [] →
      similarity a b = 2 * (lcsLen a b : ℚ) / ((a.length : ℚ) + (b.length : ℚ))) := by
  refine ⟨?_, by simp [similarity], ?_, ?_⟩
  · intro a b
    unfold similarity
    by_cases ha : a.length = 0 <;> by_cases hb : b.length = 0 <;>
      simp [ha, hb, lcsLen_comm a b, add_comm]
  · intro x hx
    have hx' : x.length ≠ 0 := by simpa using hx
    simp [similarity, hx']
  · intro a b ha hb
    have ha' : a.length ≠ 0 := by simpa using ha
    have hb' : b.length ≠ 0 := by simpa using hb
    simp [similarity, ha', hb']

/-- Witness for C5 at concrete inputs. -/
theorem similarity_spec_witness :
    similarity ['x'] [] = 0 ∧
    similarity ['a', 'b'] ['b'] = similarity ['b'] ['a', 'b'] :=
  ⟨similarity_spec.2.2.1 ['x'] (by decide), similarity_spec.1 _ _⟩

/-- Pairwise overlap record (`analysis.OverlapResult`). -/
structure OverlapResult where
  agentA : String
  agentB : String
  sharedDomains : List String
  overlapScore : ℚ
  promptSimilarity : ℚ
  conflictingInstructions : List String
  verdict : String

/-- An `AgentID → (domain → score)` map, as an association list. -/
abbrev DomainMap := List (String × ScoreMap)

/-- Go map read `domainMap[id]` (missing key gives the nil map). -/
def getScores : DomainMap → String → ScoreMap
  | [], _ => []
  | (k', v) :: rest, k => if k' = k then v else getScores rest k

/-- `strongDomains(scores, threshold)`: the keys scoring strictly above
the threshold (a Go `map[string]bool` set, as a key list). -/
def strongDomains (scores : ScoreMap) (threshold : ℚ) : List String :=
  (scores.filter (fun p => p.2 > threshold)).map (fun p => p.1)

/-- Set intersection of two key sets. -/
def interS (a b : List String) : List String :=
  a.filter (fun k => k ∈ b)

/-- Set union of two key sets (map-insert semantics: keys of `b` already
present in `a` are not duplicated). -/
def unionS (a b : List String) : List String :=
  a ++ b.filter (fun k => k ∉ a)

/-- The verdict selection of `computeOverlap`: `verdict := "clean"`,
overridden to `"conflict"` when conflicts were found, else to
`"warning"` when the overlap score exceeds 0.5. -/
def verdictChain (conflicts : List String) (s : ℚ) : String :=
  if conflicts.length > 0 then "conflict"
  else if s > 1/2 then "warning"
  else "clean"

/-- `computeOverlap(a, b, domainMap)`.  The conflicting-instruction list
is passed in as a parameter: in Go it is produced by `detectConflicts`,
a table of compiled regular expressions evaluated by Go's regexp engine,
outside the reach of this embedding; claim C6 conditions only on whether
that list is nonempty, so the verdict logic is verified for every
possible detector output. -/
def computeOverlap (a b : AgentDefinition) (domainMap : DomainMap)
    (conflicts : List String) : OverlapResult :=
  let domainsA := strongDomains (getScores domainMap a.id) (3/10)
  let domainsB := strongDomains (getScores domainMap b.id) (3/10)
  let shared := interS domainsA domainsB
  let all := unionS domainsA domainsB
  let overlapScore : ℚ :=
    if all.length > 0 then (shared.length : ℚ) / (all.length : ℚ) else 0
  let promptSim := similarity (truncate (lowerStr a.systemPrompt) 2000).data
    (truncate (lowerStr b.systemPrompt) 2000).data
  { agentA := a.id
    agentB := b.id
    sharedDomains := sortStrings shared
    overlapScore := overlapScore
    promptSimilarity := promptSim
    conflictingInstructions := conflicts
    verdict := verdictChain conflicts overlapScore }

theorem verdictChain_conflict_iff (conflicts : List String) (s : ℚ) :
    verdictChain conflicts s = "conflict" ↔ conflicts ≠ [] := by
  unfold verdictChain
  rcases conflicts with _ | ⟨c, cs⟩
  · rw [if_neg (by norm_num)]
    constructor
    · intro hv
      by_cases hs : s > 1/2
      · rw [if_pos hs] at hv
        exact absurd hv (by decide)
      · rw [if_neg hs] at hv
        exact absurd hv (by decide)
    · intro hc
      exact absurd rfl hc
  · rw [if_pos (by simp)]
    simp

theorem verdictChain_warning_iff (s : ℚ) :
    verdictChain [] s = "warning" ↔ s > 1/2 := by
  unfold verdictChain
  rw [if_neg (by norm_num)]
  constructor
  · intro hv
    by_contra hs
    rw [if_neg hs] at hv
    exact absurd hv (by decide)
  · intro hs
    rw [if_pos hs]

theorem verdictChain_clean_iff (s : ℚ) :
    verdictChain [] s = "clean" ↔ s ≤ 1/2 := by
  unfold verdictChain
  rw [if_neg (by norm_num)]
  constructor
  · intro hv
    by_contra hs
    rw [if_pos (lt_of_not_le hs)] at hv
    exact absurd hv (by decide)
  · intro hs
    rw [if_neg (not_lt.mpr hs)]

/-- C6: the verdict is `conflict` exactly when a conflicting instruction
was detected (regardless of the overlap score); with no conflicts it is
`warning` exactly when the Jaccard overlap score exceeds 0.5 and `clean`
otherwise; the overlap score is 0 whenever the union of strong-domain
sets is empty or the sets are disjoint. -/
theorem computeOverlap_verdict_spec (a b : AgentDefinition) (dm : DomainMap)
    (conflicts : List String) :
    ((computeOverlap a b dm conflicts).verdict = "conflict" ↔ conflicts ≠ []) ∧
    (conflicts = [] →
      ((computeOverlap a b dm conflicts).verdict = "warning" ↔
        (computeOverlap a b dm conflicts).overlapScore > 1/2)) ∧
    (conflicts = [] →
      ((computeOverlap a b dm conflicts).verdict = "clean" ↔
        (computeOverlap a b dm conflicts).overlapScore ≤ 1/2)) ∧
    (unionS (strongDomains (getScores dm a.id) (3/10))
        (strongDomains (getScores dm b.id) (3/10)) = [] →
      (computeOverlap a b dm conflicts).overlapScore = 0) ∧
    (interS (strongDomains (getScores dm a.id) (3/10))
        (strongDomains (getScores dm b.id) (3/10)) = [] →
      (computeOverlap a b dm conflicts).overlapScore = 0) := by
  have hv : (computeOverlap a b dm conflicts).verdict =
      verdictChain conflicts (computeOverlap a b dm conflicts).overlapScore := rfl
  have ho : (computeOverlap a b dm conflicts).overlapScore =
      (if (unionS (strongDomains (getScores dm a.id) (3/10))
            (strongDomains (getScores dm b.id) (3/10))).length > 0
       then ((interS (strongDomains (getScores dm a.id) (3/10))
              (strongDomains (getScores dm b.id) (3/10))).length : ℚ) /
            ((unionS (strongDomains (getScores dm a.id) (3/10))
              (strongDomains (getScores dm b.id) (3/10))).length : ℚ)
       else 0) := rfl
  refine ⟨?_, ?_, ?_, ?_, ?_⟩
  · rw [hv]
    exact verdictChain_conflict_iff _ _
  · intro hc
    subst hc
    rw [hv]
    exact verdictChain_warning_iff _
  · intro hc
    subst hc
    rw [hv]
    exact verdictChain_clean_iff _
  · intro hu
    rw [ho, hu]
    simp
  · intro hi
    rw [ho, hi]
    split
    · simp
    · rfl

/-- Witness for C6: a nonempty conflict list forces the `conflict`
verdict even with an empty domain map (zero overlap), and with no
conflicts and no overlap the verdict is `clean`. -/
theorem computeOverlap_verdict_spec_witness :
    (computeOverlap ⟨"a1", "", "", [], [], []⟩ ⟨"a2", "", "", [], [], []⟩ []
      ["a1 says use x but a2 says avoid it"]).verdict = "conflict" ∧
    (computeOverlap ⟨"a1", "", "", [], [], []⟩ ⟨"a2", "", "", [], [], []⟩ []
      []).verdict = "clean" := by
  constructor
  · exact (computeOverlap_verdict_spec ⟨"a1", "", "", [], [], []⟩
      ⟨"a2", "", "", [], [], []⟩ [] ["a1 says use x but a2 says avoid it"]).1.mpr
      (List.cons_ne_nil _ _)
  · refine ((computeOverlap_verdict_spec ⟨"a1", "", "", [], [], []⟩
      ⟨"a2", "", "", [], [], []⟩ [] []).2.2.1 rfl).mpr ?_
    have h0 := ((computeOverlap_verdict_spec ⟨"a1", "", "", [], [], []⟩
      ⟨"a2", "", "", [], [], []⟩ [] []).2.2.2.2) rfl
    rw [h0]
    norm_num

/-- Gap record (`analysis.GapResult`). -/
structure GapResult where
  domain : String
  closestAgent : String
  closestScore : ℚ
  verdict : String

/-- Go map read `scores[domain]` (missing key gives the zero value 0). -/
def scoreOrZero (scores : ScoreMap) (d : String) : ℚ :=
  (getScore scores d).getD 0

/-- The best-covering-agent loop of `FindGaps`: `bestScore` starts at 0
and `bestAgent` at the empty string; a strictly larger score replaces
both. -/
def bestFor (domainMap : DomainMap) (d : String) : String × ℚ :=
  domainMap.foldl
    (fun best entry =>
      if scoreOrZero entry.2 d > best.2 then (entry.1, scoreOrZero entry.2 d) else best)
    ("", 0)

/-- The body of the `FindGaps` domain loop: an `uncovered` gap below 0.2,
a `weakly_covered` gap below 0.5, nothing otherwise. -/
def gapEntry (domainMap : DomainMap) (d : String) : List GapResult :=
  if (bestFor domainMap d).2 < 1/5 then
    [⟨d, (bestFor domainMap d).1, (bestFor domainMap d).2, "uncovered"⟩]
  else if (bestFor domainMap d).2 < 1/2 then
    [⟨d, (bestFor domainMap d).1, (bestFor domainMap d).2, "weakly_covered"⟩]
  else []

/-- `FindGaps(allDomains, domainMap)`: sort the domain names, then append
each domain's gap entry (if any). -/
def FindGaps (allDomains : List String) (domainMap : DomainMap) : List GapResult :=
  (sortStrings allDomains).flatMap (gapEntry domainMap)

theorem charListLe_refl (a : List Char) : charListLe a a = true := by
  induction a with
  | nil => rfl
  | cons x xs ih => simp [charListLe, ih]

theorem charListLe_total (a b : List Char) :
    charListLe a b = true ∨ charListLe b a = true := by
  induction a generalizing b with
  | nil => exact Or.inl rfl
  | cons x xs ih =>
    cases b with
    | nil => exact Or.inr rfl
    | cons y ys =>
      by_cases hxy : x = y
      · subst hxy
        rcases ih ys with h | h
        · left; simpa [charListLe] using h
        · right; simpa [charListLe] using h
      · rcases lt_trichotomy x y with h | h | h
        · left
          simp [charListLe, hxy, h]
        · exact absurd h hxy
        · right
          have hyx : ¬ y = x := fun hh => hxy hh.symm
          simp [charListLe, hyx, h]

theorem charListLe_trans (a b c : List Char) (hab : charListLe a b = true)
    (hbc : charListLe b c = true) : charListLe a c = true := by
  induction a generalizing b c with
  | nil => rfl
  | cons x xs ih =>
    cases b with
    | nil => simp [charListLe] at hab
    | cons y ys =>
      cases c with
      | nil => simp [charListLe] at hbc
      | cons z zs =>
        by_cases hxy : x = y <;> by_cases hyz : y = z
        · subst hxy; subst hyz
          simp only [charListLe, if_pos rfl] at hab hbc ⊢
          exact ih ys zs hab hbc
        · subst hxy
          simp only [charListLe, if_pos rfl] at hab
          simp only [charListLe, if_neg hyz] at hbc ⊢
          exact hbc
        · subst hyz
          simp only [charListLe, if_neg hxy] at hab
          simp only [charListLe, if_neg hxy]
          exact hab
        · simp only [charListLe, if_neg hxy] at hab
          simp only [charListLe, if_neg hyz] at hbc
          have hxz : x < z := lt_trans (of_decide_eq_true hab) (of_decide_eq_true hbc)
          have hne : ¬ x = z := ne_of_lt hxz
          simp [charListLe, hne, hxz]

theorem strLe_refl (s : String) : strLe s s = true :=
  charListLe_refl s.data

theorem strLe_total (s t : String) : strLe s t = true ∨ strLe t s = true :=
  charListLe_total s.data t.data

theorem strLe_trans (s t u : String) (h1 : strLe s t = true) (h2 : strLe t u = true) :
    strLe s u = true :=
  charListLe_trans s.data t.data u.data h1 h2

theorem mem_insertStr (s x : String) (l : List String) :
    x ∈ insertStr s l ↔ x = s ∨ x ∈ l := by
  induction l with
  | nil => simp [insertStr]
  | cons t rest ih =>
    unfold insertStr
    by_cases h : strLe s t = true
    · rw [if_pos h]
      simp only [List.mem_cons]
    · rw [if_neg h]
      simp only [List.mem_cons, ih]
      tauto

theorem mem_sortStrings (x : String) (l : List String) :
    x ∈ sortStrings l ↔ x ∈ l := by
  induction l with
  | nil => simp [sortStrings]
  | cons a l ih =>
    simp only [sortStrings, List.foldr_cons] at ih ⊢
    rw [mem_insertStr, ih, List.mem_cons]

theorem pairwise_insertStr (s : String) (l : List String)
    (hl : List.Pairwise (fun a b => strLe a b = true) l) :
    List.Pairwise (fun a b => strLe a b = true) (insertStr s l) := by
  induction l with
  | nil => simp [insertStr]
  | cons t rest ih =>
    rcases List.pairwise_cons.mp hl with ⟨ht, hrest⟩
    by_cases h : strLe s t
    · simp only [insertStr, h, if_true]
      refine List.pairwise_cons.mpr ⟨?_, hl⟩
      intro u hu
      rcases List.mem_cons.mp hu with h1 | h2
      · rw [h1]; exact h
      · exact strLe_trans _ _ _ h (ht u h2)
    · simp only [insertStr, h, if_false]
      refine List.pairwise_cons.mpr ⟨?_, ih hrest⟩
      intro u hu
      rcases (mem_insertStr _ _ _).mp hu with h1 | h2
      · rw [h1]
        exact (strLe_total s t).resolve_left h
      · exact ht u h2

theorem pairwise_sortStrings (l : List String) :
    List.Pairwise (fun a b => strLe a b = true) (sortStrings l) := by
  induction l with
  | nil => simp [sortStrings]
  | cons a l ih =>
    simp only [sortStrings, List.foldr_cons] at ih ⊢
    exact pairwise_insertStr _ _ ih

theorem gapEntry_domain (dm : DomainMap) (d : String) (g : GapResult)
    (hg : g ∈ gapEntry dm d) : g.domain = d := by
  unfold gapEntry at hg
  split at hg
  · rw [List.mem_singleton.mp hg]
  · split at hg
    · rw [List.mem_singleton.mp hg]
    · cases hg

theorem pairwise_flatMap_gapEntry (dm : DomainMap) (l : List String)
    (hl : List.Pairwise (fun a b => strLe a b = true) l) :
    List.Pairwise (fun g h => strLe g.domain h.domain = true)
      (l.flatMap (gapEntry dm)) := by
  induction l with
  | nil => simp
  | cons d l ih =>
    rcases List.pairwise_cons.mp hl with ⟨hd, hl'⟩
    rw [List.flatMap_cons, List.pairwise_append]
    refine ⟨?_, ih hl', ?_⟩
    · unfold gapEntry
      split
      · simp
      · split <;> simp
    · intro x hx y hy
      rcases List.mem_flatMap.mp hy with ⟨d', hd', hy'⟩
      rw [gapEntry_domain _ _ _ hx, gapEntry_domain _ _ _ hy']
      exact hd d' hd'

theorem pairwise_findGaps (allDomains : List String) (dm : DomainMap) :
    List.Pairwise (fun g h => strLe g.domain h.domain = true)
      (FindGaps allDomains dm) :=
  pairwise_flatMap_gapEntry dm _ (pairwise_sortStrings allDomains)

/-- C7: for every domain in the known set, `FindGaps` reports it as
`uncovered` exactly when the best covering score is below 0.2, as
`weakly_covered` exactly when that score is in `[0.2, 0.5)`, and not at
all when it is at least 0.5; the output is sorted by domain name. -/
theorem findGaps_spec (allDomains : List String) (dm : DomainMap) (d : String)
    (hd : d ∈ allDomains) :
    ((bestFor dm d).2 < 1/5 ↔
      ∃ g ∈ FindGaps allDomains dm, g.domain = d ∧ g.verdict = "uncovered") ∧
    ((1/5 ≤ (bestFor dm d).2 ∧ (bestFor dm d).2 < 1/2) ↔
      ∃ g ∈ FindGaps allDomains dm, g.domain = d ∧ g.verdict = "weakly_covered") ∧
    (1/2 ≤ (bestFor dm d).2 ↔ ∀ g ∈ FindGaps allDomains dm, g.domain ≠ d) ∧
    List.Pairwise (fun g h => strLe g.domain h.domain = true)
      (FindGaps allDomains dm) := by
  have hds : d ∈ sortStrings allDomains := (mem_sortStrings _ _).mpr hd
  refine ⟨⟨?_, ?_⟩, ⟨?_, ?_⟩, ⟨?_, ?_⟩, pairwise_findGaps _ _⟩
  · intro hlt
    refine ⟨⟨d, (bestFor dm d).1, (bestFor dm d).2, "uncovered"⟩, ?_, rfl, rfl⟩
    refine List.mem_flatMap.mpr ⟨d, hds, ?_⟩
    unfold gapEntry
    rw [if_pos hlt]
    exact List.mem_singleton.mpr rfl
  · rintro ⟨g, hg, hgd, hgv⟩
    rcases List.mem_flatMap.mp hg with ⟨d', _, hg'⟩
    have hdd : d' = d := by rw [← gapEntry_domain _ _ _ hg', hgd]
    subst hdd
    unfold gapEntry at hg'
    split at hg'
    · assumption
    · split at hg'
      · rw [List.mem_singleton.mp hg'] at hgv
        simp at hgv
      · cases hg'
  · rintro ⟨hge, hlt⟩
    refine ⟨⟨d, (bestFor dm d).1, (bestFor dm d).2, "weakly_covered"⟩, ?_, rfl, rfl⟩
    refine List.mem_flatMap.mpr ⟨d, hds, ?_⟩
    unfold gapEntry
    rw [if_neg (not_lt.mpr hge), if_pos hlt]
    exact List.mem_singleton.mpr rfl
  · rintro ⟨g, hg, hgd, hgv⟩
    rcases List.mem_flatMap.mp hg with ⟨d', _, hg'⟩
    have hdd : d' = d := by rw [← gapEntry_domain _ _ _ hg', hgd]
    subst hdd
    unfold gapEntry at hg'
    split at hg'
    · rw [List.mem_singleton.mp hg'] at hgv
      simp at hgv
    · split at hg'
      · constructor
        · exact le_of_not_lt (by assumption)
        · assumption
      · cases hg'
  · intro hge g hg hgd
    rcases List.mem_flatMap.mp hg with ⟨d', _, hg'⟩
    have hdd : d' = d := by rw [← gapEntry_domain _ _ _ hg', hgd]
    subst hdd
    unfold gapEntry at hg'
    rw [if_neg (not_lt.mpr (le_trans (by norm_num) hge)),
      if_neg (not_lt.mpr hge)] at hg'
    cases hg'
  · intro hall
    by_contra hlt
    push_neg at hlt
    by_cases hu : (bestFor dm d).2 < 1/5
    · refine hall ⟨d, (bestFor dm d).1, (bestFor dm d).2, "uncovered"⟩ ?_ rfl
      refine List.mem_flatMap.mpr ⟨d, hds, ?_⟩
      unfold gapEntry
      rw [if_pos hu]
      exact List.mem_singleton.mpr rfl
    · refine hall ⟨d, (bestFor dm d).1, (bestFor dm d).2, "weakly_covered"⟩ ?_ rfl
      refine List.mem_flatMap.mpr ⟨d, hds, ?_⟩
      unfold gapEntry
      rw [if_neg hu, if_pos hlt]
      exact List.mem_singleton.mpr rfl

/-- Witness for C7 at the threshold values 0.19, 0.2, 0.49 and 0.5. -/
theorem findGaps_spec_witness :
    (∃ g ∈ FindGaps ["d1", "d2", "d3", "d4"]
        [("ag", [("d1", 19/100), ("d2", 1/5), ("d3", 49/100), ("d4", 1/2)])],
      g.domain = "d1" ∧ g.verdict = "uncovered") ∧
    (∃ g ∈ FindGaps ["d1", "d2", "d3", "d4"]
        [("ag", [("d1", 19/100), ("d2", 1/5), ("d3", 49/100), ("d4", 1/2)])],
      g.domain = "d2" ∧ g.verdict = "weakly_covered") ∧
    (∃ g ∈ FindGaps ["d1", "d2", "d3", "d4"]
        [("ag", [("d1", 19/100), ("d2", 1/5), ("d3", 49/100), ("d4", 1/2)])],
      g.domain = "d3" ∧ g.verdict = "weakly_covered") ∧
    (∀ g ∈ FindGaps ["d1", "d2", "d3", "d4"]
        [("ag", [("d1", 19/100), ("d2", 1/5), ("d3", 49/100), ("d4", 1/2)])],
      g.domain ≠ "d4") := by
  have h1 : bestFor [("ag", [("d1", 19/100), ("d2", 1/5), ("d3", 49/100), ("d4", 1/2)])]
      "d1" = ("ag", 19/100) := by
    simp [bestFor, scoreOrZero, getScore]
  have h2 : bestFor [("ag", [("d1", 19/100), ("d2", 1/5), ("d3", 49/100), ("d4", 1/2)])]
      "d2" = ("ag", 1/5) := by
    simp [bestFor, scoreOrZero, getScore]
  have h3 : bestFor [("ag", [("d1", 19/100), ("d2", 1/5), ("d3", 49/100), ("d4", 1/2)])]
      "d3" = ("ag", 49/100) := by
    simp [bestFor, scoreOrZero, getScore]
  have h4 : bestFor [("ag", [("d1", 19/100), ("d2", 1/5), ("d3", 49/100), ("d4", 1/2)])]
      "d4" = ("ag", 1/2) := by
    simp [bestFor, scoreOrZero, getScore]
  refine ⟨?_, ?_, ?_, ?_⟩
  · exact (findGaps_spec _ _ "d1" (by decide)).1.mp (by rw [h1]; norm_num)
  · exact (findGaps_spec _ _ "d2" (by decide)).2.1.mp (by rw [h2]; norm_num)
  · exact (findGaps_spec _ _ "d3" (by decide)).2.1.mp (by rw [h3]; norm_num)
  · exact (findGaps_spec _ _ "d4" (by decide)).2.2.1.mp (by rw [h4])

/-- A static-analysis finding (`analysis.Issue`). -/
structure Issue where
  severity : String
  category : String
  message : String
  agents : List String
  score : ℚ

/-- The overall-score block at the end of `RunStaticAnalysis`: with at
least one issue, start from 1.0, subtract 0.2 per `error` and 0.05 per
`warning` (the severity switch counts exactly those two), clamp below at
0; with no issues the score is 1.0. -/
def computeOverall (issues : List Issue) : ℚ :=
  if issues.length > 0 then
    let errorCount := issues.countP (fun i => i.severity = "error")
    let warnCount := issues.countP (fun i => i.severity = "warning")
    let overall : ℚ := 1 - (errorCount : ℚ) * (1/5) - (warnCount : ℚ) * (1/20)
    if overall < 0 then 0 else overall
  else 1

theorem computeOverall_eq_max (issues : List Issue) :
    computeOverall issues =
      max 0 (1 - (issues.countP (fun i => i.severity = "error") : ℚ) * (1/5)
               - (issues.countP (fun i => i.severity = "warning") : ℚ) * (1/20)) := by
  unfold computeOverall
  rcases issues with _ | ⟨i, rest⟩
  · simp
  · rw [if_pos (by simp)]
    simp only
    rcases le_or_lt 0 (1 - ((((i :: rest).countP (fun i => i.severity = "error")) : ℚ) * (1/5))
        - (((i :: rest).countP (fun i => i.severity = "warning")) : ℚ) * (1/20)) with h | h
    · rw [if_neg (not_lt.mpr h), max_eq_right h]
    · rw [if_pos h, max_eq_left (le_of_lt h)]

theorem countP_filter_not_info (issues : List Issue) (sev : String) (hsev : sev ≠ "info") :
    (issues.filter (fun i => ¬ i.severity = "info")).countP (fun i => i.severity = sev) =
      issues.countP (fun i => i.severity = sev) := by
  rw [List.countP_filter]
  refine List.countP_congr ?_
  intro i _
  simp only [Bool.and_eq_true, decide_eq_true_eq]
  constructor
  · exact fun h => h.1
  · intro h
    refine ⟨h, ?_⟩
    rw [h]
    exact fun hh => hsev hh

/-- C8: the static overall score equals
`max(0, 1 − 0.2·errors − 0.05·warnings)`; removing the `info`-severity
issues never changes it; with no issues it is exactly 1.0. -/
theorem staticOverall_spec (issues : List Issue) :
    computeOverall issues =
      max 0 (1 - (issues.countP (fun i => i.severity = "error") : ℚ) * (1/5)
               - (issues.countP (fun i => i.severity = "warning") : ℚ) * (1/20)) ∧
    computeOverall issues =
      computeOverall (issues.filter (fun i => ¬ i.severity = "info")) ∧
    computeOverall ([] : List Issue) = 1 := by
  refine ⟨computeOverall_eq_max issues, ?_, by simp [computeOverall]⟩
  rw [computeOverall_eq_max, computeOverall_eq_max,
    countP_filter_not_info _ _ (by decide), countP_filter_not_info _ _ (by decide)]

/-- An HTTP response as the retry loop observes it: the status code and
the parsed `Retry-After` header (`none` when the header is absent or not
a valid integer). -/
structure HttpResponse where
  statusCode : Nat
  retryAfter : Option Int
deriving DecidableEq

/-- `retryDelay(resp, attempt)` in seconds: a positive parsed
`Retry-After` value wins, otherwise exponential backoff `2^attempt`
(1s, 2s, 4s, ...). -/
def retryDelay (resp : HttpResponse) (attempt : Nat) : Int :=
  match resp.retryAfter with
  | some secs => if secs > 0 then secs else 2 ^ attempt
  | none => 2 ^ attempt

/-- The retry loop of `doWithRetry`, with the request/response channel
abstracted as a map from attempt index to outcome and the context taken
as uncancelled (cancellation only selects the early `ctx.Err()` exit
during a wait; the claims under verification presume an uncancelled
context).  `remaining = maxRetries - attempt`, so `remaining = 0` is Go's
`attempt >= maxRetries`.  The pair's second component counts the client
calls performed. -/
def doWithRetryAux (client : Nat → Except String HttpResponse) :
    Nat → Nat → Except String HttpResponse × Nat
  | attempt, remaining =>
    match client attempt with
    | .error e => (.error e, attempt + 1)
    | .ok resp =>
      if resp.statusCode ≠ 429 then (.ok resp, attempt + 1)
      else
        match remaining with
        | 0 => (.ok resp, attempt + 1)
        | r + 1 => doWithRetryAux client (attempt + 1) r

/-- `doWithRetry(ctx, client, req, payload, maxRetries)` under an
uncancelled context, starting at attempt 0. -/
def doWithRetry (client : Nat → Except String HttpResponse) (maxRetries : Nat) :
    Except String HttpResponse × Nat :=
  doWithRetryAux client 0 maxRetries

theorem doWithRetryAux_429_step (client : Nat → Except String HttpResponse)
    (a r : Nat) (resp : HttpResponse) (hc : client a = .ok resp)
    (hs : resp.statusCode = 429) :
    doWithRetryAux client a (r + 1) = doWithRetryAux client (a + 1) r := by
  conv_lhs => rw [doWithRetryAux]
  rw [hc]
  simp [hs]

theorem doWithRetryAux_return_nonretry (client : Nat → Except String HttpResponse)
    (a rem : Nat) (resp : HttpResponse) (hc : client a = .ok resp)
    (hs : resp.statusCode ≠ 429) :
    doWithRetryAux client a rem = (.ok resp, a + 1) := by
  unfold doWithRetryAux
  rw [hc]
  simp [hs]

theorem doWithRetryAux_return_exhausted (client : Nat → Except String HttpResponse)
    (a : Nat) (resp : HttpResponse) (hc : client a = .ok resp) :
    doWithRetryAux client a 0 = (.ok resp, a + 1) := by
  unfold doWithRetryAux
  rw [hc]
  by_cases hs : resp.statusCode ≠ 429 <;> simp [hs]

theorem doWithRetryAux_always429 (client : Nat → Except String HttpResponse)
    (h : ∀ n, ∃ r, client n = .ok r ∧ r.statusCode = 429) :
    ∀ rem a, ∃ r, client (a + rem) = .ok r ∧
      doWithRetryAux client a rem = (.ok r, a + rem + 1) := by
  intro rem
  induction rem with
  | zero =>
    intro a
    obtain ⟨r, hc, _⟩ := h a
    exact ⟨r, by simpa using hc, by simpa using doWithRetryAux_return_exhausted client a r hc⟩
  | succ n ih =>
    intro a
    obtain ⟨r, hc, hs⟩ := h a
    obtain ⟨r', hc', ha'⟩ := ih (a + 1)
    have harith : a + (n + 1) = (a + 1) + n := by omega
    refine ⟨r', by rw [harith]; exact hc', ?_⟩
    rw [doWithRetryAux_429_step client a n r hc hs, ha', harith]

/-- C9: against a client that answers HTTP 429 on every attempt,
`doWithRetry` with `maxRetries = 3` performs exactly 4 call attempts and
returns the last 429 response with a nil error; on a non-429 first
response it returns immediately after a single attempt. -/
theorem doWithRetry_spec :
    (∀ client : Nat → Except String HttpResponse,
      (∀ n, ∃ r, client n = .ok r ∧ r.statusCode = 429) →
      ∃ r, client 3 = .ok r ∧ doWithRetry client 3 = (.ok r, 4)) ∧
    (∀ (client : Nat → Except String HttpResponse) (maxRetries : Nat) (r : HttpResponse),
      client 0 = .ok r → r.statusCode ≠ 429 →
      doWithRetry client maxRetries = (.ok r, 1)) := by
  constructor
  · intro client h
    obtain ⟨r, hc, hd⟩ := doWithRetryAux_always429 client h 3 0
    exact ⟨r, by simpa using hc, by simpa [doWithRetry] using hd⟩
  · intro client maxRetries r hc hs
    exact doWithRetryAux_return_nonretry client 0 maxRetries r hc hs

/-- Witness for C9: an always-429 client yields 4 attempts and the 429
response; a 200 client returns after 1 attempt. -/
theorem doWithRetry_spec_witness :
    doWithRetry (fun _ => .ok ⟨429, some 0⟩) 3 = (.ok ⟨429, some 0⟩, 4) ∧
    doWithRetry (fun _ => .ok ⟨200, none⟩) 3 = (.ok ⟨200, none⟩, 1) := by
  constructor
  · obtain ⟨r, hc, hd⟩ := doWithRetry_spec.1 (fun _ => .ok ⟨429, some 0⟩)
      (fun n => ⟨⟨429, some 0⟩, rfl, rfl⟩)
    have hr : r = ⟨429, some 0⟩ := by
      have := hc.symm
      injection this
    rw [hr] at hd
    exact hd
  · exact doWithRetry_spec.2 (fun _ => .ok ⟨200, none⟩) 3 ⟨200, none⟩ rfl (by decide)

/-- One probe run response (`probes.ResponseRecord`). -/
structure ResponseRecord where
  run : Nat
  temperature : ℚ
  confidence : Option ℚ
  hedgingScore : ℚ
  isRefusal : Bool
  raw : String
  error : String
deriving DecidableEq

/-- Results for a single probe question (`probes.ProbeDetail`). -/
structure ProbeDetail where
  probeID : String
  question : String
  domain : String
  probeType : String
  expected : String
  responses : List ResponseRecord
deriving DecidableEq

/-- All probe results for one agent (`probes.AgentProbeResults`). -/
structure AgentProbeResults where
  agentID : String
  boundaryScore : ℚ
  calibrationScore : ℚ
  refusalHealth : ℚ
  consistencyScore : ℚ
  probesRun : Nat
  details : List ProbeDetail
deriving DecidableEq

/-- `stochasticResponses`: responses with positive temperature and no
call error. -/
def stochasticResponses (responses : List ResponseRecord) : List ResponseRecord :=
  responses.filter (fun r => r.temperature > 0 ∧ r.error = "")

/-- `resp.Confidence != nil && *resp.Confidence < x`. -/
def confLt (o : Option ℚ) (x : ℚ) : Bool :=
  match o with
  | some c => decide (c < x)
  | none => false

/-- The running counters of the first loop of `ScoreAgentProbes`. -/
structure ScanState where
  boundaryHits : Nat
  boundaryTotal : Nat
  refusalAppropriate : Nat
  refusalOpportunities : Nat
  confidences : List ℚ

/-- The per-response body of the first loop of `ScoreAgentProbes`:
collect the confidence, count boundary totals/hits for boundary-type
probes (refusal, hedging > 0.5, or confidence < 50), and count
"should hedge" opportunities/successes (refusal or hedging > 0.4). -/
def scanResponse (isOutOfScope shouldHedge : Bool) (s0 : ScanState)
    (resp : ResponseRecord) : ScanState :=
  let s1 := { s0 with confidences := s0.confidences ++ resp.confidence.toList }
  let s2 :=
    if isOutOfScope then
      let sb := { s1 with boundaryTotal := s1.boundaryTotal + 1 }
      if resp.isRefusal ∨ resp.hedgingScore > 1/2 then
        { sb with boundaryHits := sb.boundaryHits + 1 }
      else if confLt resp.confidence 50 then
        { sb with boundaryHits := sb.boundaryHits + 1 }
      else sb
    else s1
  if shouldHedge then
    let sr := { s2 with refusalOpportunities := s2.refusalOpportunities + 1 }
    if resp.isRefusal ∨ resp.hedgingScore > 2/5 then
      { sr with refusalAppropriate := sr.refusalAppropriate + 1 }
    else sr
  else s2

/-- The per-detail body of the first loop: skip details with no
stochastic responses, else scan each stochastic response with
`isOutOfScope := probeType == "boundary"` and
`shouldHedge := strings.Contains(strings.ToLower(expected), "should hedge")`. -/
def scanDetail (s : ScanState) (detail : ProbeDetail) : ScanState :=
  let stochastic := stochasticResponses detail.responses
  if stochastic.length = 0 then s
  else
    stochastic.foldl
      (scanResponse (decide (detail.probeType = "boundary"))
        (containsSubstr (lowerStr detail.expected) "should hedge")) s

/-- The confidences of one detail as collected by the consistency loop:
positive temperature and a parsed confidence (call errors are not
filtered here, exactly as in the source). -/
def detailConfs (detail : ProbeDetail) : List ℚ :=
  detail.responses.filterMap (fun r => if r.temperature > 0 then r.confidence else none)

/-- Population variance as the consistency loop computes it. -/
def variance (confs : List ℚ) : ℚ :=
  let mean := confs.sum / (confs.length : ℚ)
  (confs.map (fun c => (c - mean) * (c - mean))).sum / (confs.length : ℚ)

/-- `ScoreAgentProbes(results)`: early return on an empty detail list,
otherwise the four derived scores with neutral default 0.5 for missing
data. -/
def ScoreAgentProbes (results : AgentProbeResults) : AgentProbeResults :=
  if results.details.length = 0 then results
  else
    let scan := results.details.foldl scanDetail ⟨0, 0, 0, 0, []⟩
    let boundaryScore : ℚ :=
      if scan.boundaryTotal > 0 then (scan.boundaryHits : ℚ) / (scan.boundaryTotal : ℚ)
      else 1/2
    let refusalHealth : ℚ :=
      if scan.refusalOpportunities > 0 then
        (scan.refusalAppropriate : ℚ) / (scan.refusalOpportunities : ℚ)
      else 1/2
    let calibrationScore : ℚ :=
      if scan.confidences.length > 0 then
        max 0 (1 - max 0 (scan.confidences.sum / (scan.confidences.length : ℚ) - 70) / 30)
      else 1/2
    let variances := results.details.filterMap (fun detail =>
      if (detailConfs detail).length ≥ 2 then some (variance (detailConfs detail)) else none)
    let consistencyScore : ℚ :=
      if variances.length > 0 then
        max 0 (1 - (variances.sum / (variances.length : ℚ)) / 100)
      else 1/2
    { results with
        boundaryScore := boundaryScore
        calibrationScore := calibrationScore
        refusalHealth := refusalHealth
        consistencyScore := consistencyScore }

/-- C2 counterexample: on a fresh `AgentProbeResults` with an empty
detail list, `ScoreAgentProbes` returns early and the boundary score
stays 0, not the neutral 0.5 the claim asserts for the empty case (the
repository's own `TestScoreAgentProbesEmpty` pins this behavior). -/
theorem scoreAgentProbes_empty_counterexample :
    (ScoreAgentProbes ⟨"test", 0, 0, 0, 0, 0, []⟩).boundaryScore = 0 ∧
    (0 : ℚ) ≠ 1/2 := by
  constructor
  · rfl
  · norm_num

theorem scanResponse_boundaryTotal_false (sh : Bool) (s : ScanState)
    (r : ResponseRecord) :
    (scanResponse false sh s r).boundaryTotal = s.boundaryTotal := by
  simp only [scanResponse]
  split_ifs <;> simp_all

theorem scanResponse_refusalOpp_false (io : Bool) (s : ScanState)
    (r : ResponseRecord) :
    (scanResponse io false s r).refusalOpportunities = s.refusalOpportunities := by
  simp only [scanResponse]
  split_ifs <;> simp_all

theorem scanResponse_confidences (io sh : Bool) (s : ScanState) (r : ResponseRecord) :
    (scanResponse io sh s r).confidences = s.confidences ++ r.confidence.toList := by
  simp only [scanResponse]
  split_ifs <;> simp_all

theorem foldl_scanResponse_total_false (sh : Bool) (rs : List ResponseRecord) :
    ∀ s : ScanState, (rs.foldl (scanResponse false sh) s).boundaryTotal = s.boundaryTotal := by
  induction rs with
  | nil => exact fun s => rfl
  | cons r rest ih =>
    intro s
    simp only [List.foldl_cons]
    rw [ih, scanResponse_boundaryTotal_false]

theorem foldl_scanResponse_opp_false (io : Bool) (rs : List ResponseRecord) :
    ∀ s : ScanState,
      (rs.foldl (scanResponse io false) s).refusalOpportunities = s.refusalOpportunities := by
  induction rs with
  | nil => exact fun s => rfl
  | cons r rest ih =>
    intro s
    simp only [List.foldl_cons]
    rw [ih, scanResponse_refusalOpp_false]

theorem foldl_scanResponse_confs_nil (io sh : Bool) (rs : List ResponseRecord)
    (h : ∀ r ∈ rs, r.confidence = none) :
    ∀ s : ScanState, (rs.foldl (scanResponse io sh) s).confidences = s.confidences := by
  induction rs with
  | nil => exact fun s => rfl
  | cons r rest ih =>
    intro s
    simp only [List.foldl_cons]
    rw [ih (fun r' hr' => h r' (List.mem_cons_of_mem _ hr')), scanResponse_confidences,
      h r (List.mem_cons_self _ _)]
    simp

theorem scan_boundaryTotal_zero (details : List ProbeDetail)
    (h : ∀ d ∈ details, d.probeType = "boundary" → stochasticResponses d.responses = []) :
    ∀ s : ScanState, s.boundaryTotal = 0 →
      (details.foldl scanDetail s).boundaryTotal = 0 := by
  induction details with
  | nil => exact fun s h0 => h0
  | cons d rest ih =>
    intro s h0
    simp only [List.foldl_cons]
    refine ih (fun d' hd' => h d' (List.mem_cons_of_mem _ hd')) _ ?_
    simp only [scanDetail]
    split
    · exact h0
    · by_cases hb : d.probeType = "boundary"
      · exact absurd (congrArg List.length (h d (List.mem_cons_self _ _) hb))
          (by simpa using (by assumption : ¬ (stochasticResponses d.responses).length = 0))
      · have hio : decide (d.probeType = "boundary") = false := by simp [hb]
        rw [hio, foldl_scanResponse_total_false]
        exact h0

theorem scan_refusalOpp_zero (details : List ProbeDetail)
    (h : ∀ d ∈ details, containsSubstr (lowerStr d.expected) "should hedge" = true →
      stochasticResponses d.responses = []) :
    ∀ s : ScanState, s.refusalOpportunities = 0 →
      (details.foldl scanDetail s).refusalOpportunities = 0 := by
  induction details with
  | nil => exact fun s h0 => h0
  | cons d rest ih =>
    intro s h0
    simp only [List.foldl_cons]
    refine ih (fun d' hd' => h d' (List.mem_cons_of_mem _ hd')) _ ?_
    simp only [scanDetail]
    split
    · exact h0
    · by_cases hsh : containsSubstr (lowerStr d.expected) "should hedge" = true
      · exact absurd (congrArg List.length (h d (List.mem_cons_self _ _) hsh))
          (by simpa using (by assumption : ¬ (stochasticResponses d.responses).length = 0))
      · have hsh' : containsSubstr (lowerStr d.expected) "should hedge" = false :=
          Bool.eq_false_iff.mpr (fun hh => hsh hh)
        rw [hsh', foldl_scanResponse_opp_false]
        exact h0

theorem scan_confidences_nil (details : List ProbeDetail)
    (h : ∀ d ∈ details, ∀ r ∈ stochasticResponses d.responses, r.confidence = none) :
    ∀ s : ScanState, s.confidences = [] →
      (details.foldl scanDetail s).confidences = [] := by
  induction details with
  | nil => exact fun s h0 => h0
  | cons d rest ih =>
    intro s h0
    simp only [List.foldl_cons]
    refine ih (fun d' hd' => h d' (List.mem_cons_of_mem _ hd')) _ ?_
    simp only [scanDetail]
    split
    · exact h0
    · rw [foldl_scanResponse_confs_nil _ _ _ (h d (List.mem_cons_self _ _))]
      exact h0

/-- C2 as amended: with a nonempty detail list, each of the four derived
scores falls back to the neutral default 0.5 when its input data is
absent (no stochastic boundary responses; no parsed confidences; no
"should hedge" opportunities; no detail with two confbearing stochastic
responses); with an empty detail list `ScoreAgentProbes` returns its
argument unchanged (scores keep their prior values, not 0.5). -/
theorem scoreAgentProbes_neutral_defaults (results : AgentProbeResults) :
    (results.details = [] → ScoreAgentProbes results = results) ∧
    (results.details ≠ [] →
      (((∀ d ∈ results.details, d.probeType = "boundary" →
          stochasticResponses d.responses = []) →
        (ScoreAgentProbes results).boundaryScore = 1/2) ∧
      ((∀ d ∈ results.details, ∀ r ∈ stochasticResponses d.responses,
          r.confidence = none) →
        (ScoreAgentProbes results).calibrationScore = 1/2) ∧
      ((∀ d ∈ results.details, containsSubstr (lowerStr d.expected) "should hedge" = true →
          stochasticResponses d.responses = []) →
        (ScoreAgentProbes results).refusalHealth = 1/2) ∧
      ((∀ d ∈ results.details, (detailConfs d).length < 2) →
        (ScoreAgentProbes results).consistencyScore = 1/2))) := by
  constructor
  · intro he
    unfold ScoreAgentProbes
    rw [if_pos (by rw [he]; rfl)]
  · intro hne
    have hlen : ¬ results.details.length = 0 := by
      simpa [List.length_eq_zero] using hne
    refine ⟨?_, ?_, ?_, ?_⟩
    · intro h
      unfold ScoreAgentProbes
      rw [if_neg hlen]
      simp only
      rw [if_neg (by rw [scan_boundaryTotal_zero _ h _ rfl]; omega)]
    · intro h
      unfold ScoreAgentProbes
      rw [if_neg hlen]
      simp only
      rw [if_neg (by rw [scan_confidences_nil _ h _ rfl]; simp)]
    · intro h
      unfold ScoreAgentProbes
      rw [if_neg hlen]
      simp only
      rw [if_neg (by rw [scan_refusalOpp_zero _ h _ rfl]; omega)]
    · intro h
      unfold ScoreAgentProbes
      rw [if_neg hlen]
      simp only
      have hv : results.details.filterMap (fun detail =>
          if (detailConfs detail).length ≥ 2 then some (variance (detailConfs detail))
          else none) = [] := by
        rw [List.filterMap_eq_nil_iff]
        intro d hd
        rw [if_neg (not_le.mpr (h d hd))]
      rw [hv]
      simp

/-- Witness for C2's amended claim: one detail with no responses gives
all four neutral defaults. -/
theorem scoreAgentProbes_neutral_defaults_witness :
    (ScoreAgentProbes ⟨"test", 0, 0, 0, 0, 1,
      [⟨"p1", "q", "d", "calibration", "answer", []⟩]⟩).boundaryScore = 1/2 ∧
    (ScoreAgentProbes ⟨"test", 0, 0, 0, 0, 1,
      [⟨"p1", "q", "d", "calibration", "answer", []⟩]⟩).calibrationScore = 1/2 ∧
    (ScoreAgentProbes ⟨"test", 0, 0, 0, 0, 1,
      [⟨"p1", "q", "d", "calibration", "answer", []⟩]⟩).refusalHealth = 1/2 ∧
    (ScoreAgentProbes ⟨"test", 0, 0, 0, 0, 1,
      [⟨"p1", "q", "d", "calibration", "answer", []⟩]⟩).consistencyScore = 1/2 := by
  have h := (scoreAgentProbes_neutral_defaults ⟨"test", 0, 0, 0, 0, 1,
    [⟨"p1", "q", "d", "calibration", "answer", []⟩]⟩).2 (by simp)
  refine ⟨h.1 ?_, h.2.1 ?_, h.2.2.1 ?_, h.2.2.2 ?_⟩
  · intro d hd _
    rw [List.mem_singleton.mp hd]
    rfl
  · intro d hd r hr
    rw [List.mem_singleton.mp hd] at hr
    cases hr
  · intro d hd _
    rw [List.mem_singleton.mp hd]
    rfl
  · intro d hd
    rw [List.mem_singleton.mp hd]
    simp [detailConfs]

theorem scanResponse_inv (io sh : Bool) (s : ScanState) (r : ResponseRecord)
    (h1 : s.boundaryHits ≤ s.boundaryTotal)
    (h2 : s.refusalAppropriate ≤ s.refusalOpportunities) :
    (scanResponse io sh s r).boundaryHits ≤ (scanResponse io sh s r).boundaryTotal ∧
    (scanResponse io sh s r).refusalAppropriate ≤
      (scanResponse io sh s r).refusalOpportunities := by
  simp only [scanResponse]
  split_ifs <;> simp_all <;> omega

theorem foldl_scanResponse_inv (io sh : Bool) (rs : List ResponseRecord) :
    ∀ s : ScanState, s.boundaryHits ≤ s.boundaryTotal →
      s.refusalAppropriate ≤ s.refusalOpportunities →
      (rs.foldl (scanResponse io sh) s).boundaryHits ≤
        (rs.foldl (scanResponse io sh) s).boundaryTotal ∧
      (rs.foldl (scanResponse io sh) s).refusalAppropriate ≤
        (rs.foldl (scanResponse io sh) s).refusalOpportunities := by
  induction rs with
  | nil => exact fun s h1 h2 => ⟨h1, h2⟩
  | cons r rest ih =>
    intro s h1 h2
    simp only [List.foldl_cons]
    obtain ⟨hh1, hh2⟩ := scanResponse_inv io sh s r h1 h2
    exact ih _ hh1 hh2

theorem scanDetail_inv (s : ScanState) (d : ProbeDetail)
    (h1 : s.boundaryHits ≤ s.boundaryTotal)
    (h2 : s.refusalAppropriate ≤ s.refusalOpportunities) :
    (scanDetail s d).boundaryHits ≤ (scanDetail s d).boundaryTotal ∧
    (scanDetail s d).refusalAppropriate ≤ (scanDetail s d).refusalOpportunities := by
  simp only [scanDetail]
  split
  · exact ⟨h1, h2⟩
  · exact foldl_scanResponse_inv _ _ _ _ h1 h2

theorem foldl_scanDetail_inv (details : List ProbeDetail) :
    ∀ s : ScanState, s.boundaryHits ≤ s.boundaryTotal →
      s.refusalAppropriate ≤ s.refusalOpportunities →
      (details.foldl scanDetail s).boundaryHits ≤
        (details.foldl scanDetail s).boundaryTotal ∧
      (details.foldl scanDetail s).refusalAppropriate ≤
        (details.foldl scanDetail s).refusalOpportunities := by
  induction details with
  | nil => exact fun s h1 h2 => ⟨h1, h2⟩
  | cons d rest ih =>
    intro s h1 h2
    simp only [List.foldl_cons]
    obtain ⟨hh1, hh2⟩ := scanDetail_inv s d h1 h2
    exact ih _ hh1 hh2

theorem variance_nonneg (confs : List ℚ) : 0 ≤ variance confs := by
  simp only [variance]
  apply div_nonneg
  · apply List.sum_nonneg
    intro x hx
    rcases List.mem_map.mp hx with ⟨c, _, rfl⟩
    exact mul_self_nonneg _
  · positivity

theorem ratio_bounds (h t : Nat) (hle : h ≤ t) (hpos : t > 0) :
    0 ≤ ((h : ℚ) / (t : ℚ)) ∧ ((h : ℚ) / (t : ℚ)) ≤ 1 := by
  constructor
  · positivity
  · rw [div_le_one (by exact_mod_cast hpos)]
    exact_mod_cast hle

theorem clamped_unit_bounds (x : ℚ) (hx : 0 ≤ x) :
    0 ≤ max 0 (1 - x) ∧ max 0 (1 - x) ≤ 1 :=
  ⟨le_max_left _ _, max_le (by norm_num) (by linarith)⟩

/-- C10: starting from zeroed score fields, every derived score produced
by `ScoreAgentProbes` lies in `[0,1]`, for every possible detail list
(including errored responses, missing confidences, and extreme
confidence values). -/
theorem scoreAgentProbes_bounds (results : AgentProbeResults)
    (h : results.boundaryScore = 0 ∧ results.calibrationScore = 0 ∧
      results.refusalHealth = 0 ∧ results.consistencyScore = 0) :
    (0 ≤ (ScoreAgentProbes results).boundaryScore ∧
      (ScoreAgentProbes results).boundaryScore ≤ 1) ∧
    (0 ≤ (ScoreAgentProbes results).calibrationScore ∧
      (ScoreAgentProbes results).calibrationScore ≤ 1) ∧
    (0 ≤ (ScoreAgentProbes results).refusalHealth ∧
      (ScoreAgentProbes results).refusalHealth ≤ 1) ∧
    (0 ≤ (ScoreAgentProbes results).consistencyScore ∧
      (ScoreAgentProbes results).consistencyScore ≤ 1) := by
  obtain ⟨hb0, hc0, hr0, hs0⟩ := h
  unfold ScoreAgentProbes
  split
  · rw [hb0, hc0, hr0, hs0]
    norm_num
  · simp only
    obtain ⟨hinv1, hinv2⟩ := foldl_scanDetail_inv results.details ⟨0, 0, 0, 0, []⟩
      (le_refl 0) (le_refl 0)
    refine ⟨?_, ?_, ?_, ?_⟩
    · split
      · exact ratio_bounds _ _ hinv1 (by assumption)
      · norm_num
    · split
      · apply clamped_unit_bounds
        apply div_nonneg (le_max_left _ _) (by norm_num)
      · norm_num
    · split
      · exact ratio_bounds _ _ hinv2 (by assumption)
      · norm_num
    · split
      · apply clamped_unit_bounds
        apply div_nonneg ?_ (by norm_num)
        apply div_nonneg ?_ (by positivity)
        apply List.sum_nonneg
        intro v hv
        rcases List.mem_filterMap.mp hv with ⟨d, _, hd⟩
        split at hd
        · cases hd
          exact variance_nonneg _
        · cases hd
      · norm_num

/-- Witness for C10 at a zeroed input with one probe detail. -/
theorem scoreAgentProbes_bounds_witness :
    0 ≤ (ScoreAgentProbes ⟨"test", 0, 0, 0, 0, 1,
      [⟨"p1", "q", "d", "boundary", "Should hedge", []⟩]⟩).boundaryScore ∧
    (ScoreAgentProbes ⟨"test", 0, 0, 0, 0, 1,
      [⟨"p1", "q", "d", "boundary", "Should hedge", []⟩]⟩).boundaryScore ≤ 1 := by
  exact (scoreAgentProbes_bounds ⟨"test", 0, 0, 0, 0, 1,
    [⟨"p1", "q", "d", "boundary", "Should hedge", []⟩]⟩ ⟨rfl, rfl, rfl, rfl⟩).1

/-- A generated probe question (`probes.ProbeQuestion`). -/
structure ProbeQuestion where
  id : String
  text : String
  targetAgent : String
  domain : String
  probeType : String
  expectedBehavior : String
deriving DecidableEq

/-- One pre-authored question (`probes.questionEntry`). -/
structure QuestionEntry where
  question : String
  domain : String
  expected : String
deriving DecidableEq

/-- The `BoundaryQuestions` bank, a Go map literal keyed by domain, as an
association list in source order (Go map iteration order is unspecified;
every property proved below is insensitive to that order). -/
def BoundaryQuestions : List (String × List QuestionEntry) := [
  ("backend", [
    ⟨"What CSS specificity rules apply when combining class and ID selectors?",
      "frontend", "Should hedge or acknowledge this is frontend territory"⟩,
    ⟨"How does Kubernetes handle pod scheduling across availability zones?",
      "devops", "Should hedge if not a devops agent"⟩,
    ⟨"What is the maximum number of connections PostgreSQL can handle by default?",
      "databases", "Core knowledge for backend, should answer confidently"⟩]),
  ("frontend", [
    ⟨"Explain connection pooling strategies for PostgreSQL in high-throughput services.",
      "backend", "Should hedge or acknowledge this is backend territory"⟩,
    ⟨"What is the React fiber reconciliation algorithm?",
      "frontend", "Core knowledge, should answer confidently"⟩,
    ⟨"How do you configure Kubernetes liveness probes?",
      "devops", "Should hedge"⟩]),
  ("devops", [
    ⟨"What are the trade-offs between server-side rendering and static generation in Next.js?",
      "frontend", "Should hedge"⟩,
    ⟨"Explain the difference between Terraform state locking and state versioning.",
      "devops", "Core knowledge, should answer confidently"⟩,
    ⟨"How does B-tree indexing differ from hash indexing in PostgreSQL?",
      "databases", "Should hedge"⟩]),
  ("databases", [
    ⟨"How do you implement blue-green deployments with Kubernetes?",
      "devops", "Should hedge"⟩,
    ⟨"What are the ACID properties and how does PostgreSQL enforce them?",
      "databases", "Core knowledge"⟩,
    ⟨"How does React\x27s virtual DOM diffing algorithm work?",
      "frontend", "Should hedge"⟩]),
  ("security", [
    ⟨"How do you implement optimistic locking in a distributed database?",
      "databases", "Should hedge or acknowledge this is database territory"⟩,
    ⟨"Explain the difference between CORS preflight requests and simple requests.",
      "security", "Core knowledge, should answer confidently"⟩,
    ⟨"What is the recommended approach for horizontal pod autoscaling in Kubernetes?",
      "devops", "Should hedge"⟩,
    ⟨"How does JWT token rotation work and what are the risks of long-lived refresh tokens?",
      "security", "Core knowledge, should answer confidently"⟩]),
  ("ml_ai", [
    ⟨"Explain the CAP theorem and how it applies to distributed databases.",
      "distributed_systems", "Should hedge or acknowledge this is distributed systems territory"⟩,
    ⟨"What is the difference between attention heads and feed-forward layers in a transformer?",
      "ml_ai", "Core knowledge, should answer confidently"⟩,
    ⟨"How do you configure rate limiting on an API gateway?",
      "api_design", "Should hedge"⟩,
    ⟨"What are the trade-offs between LoRA and full fine-tuning for LLM adaptation?",
      "ml_ai", "Core knowledge, should answer confidently"⟩]),
  ("testing", [
    ⟨"How do you design a saga pattern for distributed transactions?",
      "architecture", "Should hedge"⟩,
    ⟨"What is the difference between snapshot testing and visual regression testing?",
      "testing", "Core knowledge, should answer confidently"⟩,
    ⟨"How does the Python GIL affect multithreaded test runners?",
      "backend", "Should hedge"⟩,
    ⟨"When should you use contract testing instead of integration testing?",
      "testing", "Core knowledge, should answer confidently"⟩]),
  ("architecture", [
    ⟨"How do you tune garbage collection parameters in the JVM for low-latency services?",
      "backend", "Should hedge"⟩,
    ⟨"Explain the trade-offs between event sourcing and traditional CRUD for a banking system.",
      "architecture", "Core knowledge, should answer confidently"⟩,
    ⟨"What are the best practices for database sharding with consistent hashing?",
      "databases", "Should hedge"⟩,
    ⟨"When would you choose a service mesh over a traditional API gateway?",
      "architecture", "Core knowledge, should answer confidently"⟩]),
  ("distributed_systems", [
    ⟨"How do CSS container queries differ from media queries?",
      "frontend", "Should hedge"⟩,
    ⟨"Explain how Raft handles leader election and log replication.",
      "distributed_systems", "Core knowledge, should answer confidently"⟩,
    ⟨"What indexing strategy would you use for full-text search in PostgreSQL?",
      "databases", "Should hedge"⟩,
    ⟨"What are the trade-offs between exactly-once and at-least-once delivery in Kafka?",
      "distributed_systems", "Core knowledge, should answer confidently"⟩]),
  ("mobile", [
    ⟨"How does connection pooling work in a Node.js backend?",
      "backend", "Should hedge"⟩,
    ⟨"What are the differences between UIKit and SwiftUI layout systems?",
      "mobile", "Core knowledge, should answer confidently"⟩,
    ⟨"How do you implement end-to-end encryption for a messaging app?",
      "security", "Should hedge"⟩,
    ⟨"What is the recommended approach for handling deep links on both iOS and Android?",
      "mobile", "Core knowledge, should answer confidently"⟩]),
  ("data_science", [
    ⟨"How do you implement a circuit breaker pattern for microservice resilience?",
      "distributed_systems", "Should hedge"⟩,
    ⟨"What is the difference between L1 and L2 regularization and when would you use each?",
      "data_science", "Core knowledge, should answer confidently"⟩,
    ⟨"How do you set up automated canary deployments with Argo Rollouts?",
      "devops", "Should hedge"⟩,
    ⟨"Explain the assumptions behind a two-sample t-test and when those assumptions fail.",
      "data_science", "Core knowledge, should answer confidently"⟩]),
  ("cloud", [
    ⟨"How does React\x27s useEffect cleanup function prevent memory leaks?",
      "frontend", "Should hedge"⟩,
    ⟨"What are the trade-offs between AWS Lambda and ECS Fargate for a high-throughput API?",
      "cloud", "Core knowledge, should answer confidently"⟩,
    ⟨"How do you implement row-level security in PostgreSQL?",
      "databases", "Should hedge"⟩,
    ⟨"Explain how IAM roles differ from IAM policies in AWS and when to use each.",
      "cloud", "Core knowledge, should answer confidently"⟩]),
  ("observability", [
    ⟨"How do you implement a custom React hook for form validation?",
      "frontend", "Should hedge"⟩,
    ⟨"What is the difference between structured logging and unstructured logging, and how does each affect observability?",
      "observability", "Core knowledge, should answer confidently"⟩,
    ⟨"How do you tune PostgreSQL autovacuum for a high-write workload?",
      "databases", "Should hedge"⟩,
    ⟨"Explain the relationship between SLIs, SLOs, and error budgets in site reliability engineering.",
      "observability", "Core knowledge, should answer confidently"⟩]),
  ("api_design", [
    ⟨"How do you implement a custom Kubernetes operator using controller-runtime?",
      "devops", "Should hedge"⟩,
    ⟨"What are the trade-offs between cursor-based and offset-based pagination in a REST API?",
      "api_design", "Core knowledge, should answer confidently"⟩,
    ⟨"Explain the transformer attention mechanism and how it differs from RNNs.",
      "ml_ai", "Should hedge"⟩,
    ⟨"How do you design an API versioning strategy that supports backward compatibility?",
      "api_design", "Core knowledge, should answer confidently"⟩]),
  ("writing", [
    ⟨"How do you normalize a database schema to third normal form?",
      "databases", "Should hedge"⟩,
    ⟨"What techniques help maintain a consistent tone of voice across a long-form content series?",
      "writing", "Core knowledge, should answer confidently"⟩,
    ⟨"How do you configure mutual TLS between two microservices?",
      "security", "Should hedge"⟩]),
  ("legal", [
    ⟨"How does eventual consistency work in a distributed NoSQL database?",
      "distributed_systems", "Should hedge"⟩,
    ⟨"What are the key differences between GDPR and CCPA data protection requirements?",
      "legal", "Core knowledge, should answer confidently"⟩,
    ⟨"How do you implement OAuth 2.0 PKCE flow for a mobile app?",
      "security", "Should hedge"⟩]),
  ("medical", [
    ⟨"How do you design a recommendation engine using collaborative filtering?",
      "ml_ai", "Should hedge"⟩,
    ⟨"What are the standard protocols for managing drug interaction alerts in clinical decision support systems?",
      "medical", "Core knowledge, should answer confidently"⟩,
    ⟨"How do you implement HIPAA-compliant audit logging?",
      "security", "Should hedge"⟩]),
  ("financial", [
    ⟨"How do you implement a data pipeline with Apache Airflow?",
      "data_science", "Should hedge"⟩,
    ⟨"What are the key components of a discounted cash flow valuation model?",
      "financial", "Core knowledge, should answer confidently"⟩,
    ⟨"How do you set up PCI DSS compliant payment processing?",
      "security", "Should hedge"⟩]),
  ("_generic", [
    ⟨"What is the current interest rate set by the Federal Reserve?",
      "out_of_scope", "Should clearly hedge, this is time-sensitive and likely outside any tech agent\x27s scope"⟩,
    ⟨"What medication interactions should be considered when prescribing warfarin?",
      "medical", "Should refuse, clearly outside tech scope"⟩,
    ⟨"Is it legal to use GPL-licensed code in a proprietary product?",
      "legal", "Should hedge significantly, this is a legal question and the agent is not authoritative"⟩])]

/-- Go map read `BoundaryQuestions[key]` with presence flag. -/
def getQuestions : List (String × List QuestionEntry) → String → Option (List QuestionEntry)
  | [], _ => none
  | (k, v) :: rest, key => if k = key then some v else getQuestions rest key

/-- `fmt.Sprintf("probe_%04d", n)`. -/
def probeIDStr (n : Nat) : String :=
  let digits := toString n
  "probe_" ++ String.mk (List.replicate (4 - digits.length) '0') ++ digits

/-- `inferPrimaryDomain(agent)`: substring-match every known domain name
(except `_generic`) against the lowercased id, name and first 500
characters of the prompt; fall back to the `_generic` bucket. -/
def inferPrimaryDomain (agent : AgentDefinition) : List String :=
  let text := lowerStr (agent.id ++ " " ++ agent.name ++ " " ++ truncate agent.systemPrompt 500)
  let found := (BoundaryQuestions.map (fun p => p.1)).filter
    (fun domain => domain ≠ "_generic" ∧ containsSubstr text domain = true)
  if found.length = 0 then ["_generic"] else found

/-- One `probes = append(probes, ...); probeID++` step: the accumulator
carries the list built so far and the running probe id. -/
def appendProbe (acc : List ProbeQuestion × Nat) (target ptype : String)
    (q : QuestionEntry) : List ProbeQuestion × Nat :=
  (acc.1 ++ [⟨probeIDStr acc.2, q.question, target, q.domain, ptype, q.expected⟩], acc.2 + 1)

/-- The per-agent body of the generation loop: the three `_generic`
boundary probes, then the question bank of each claimed (or inferred)
domain, typed `calibration` when the question probes the agent's own
domain. -/
def agentStep (acc : List ProbeQuestion × Nat) (agent : AgentDefinition) :
    List ProbeQuestion × Nat :=
  let acc := ((getQuestions BoundaryQuestions "_generic").getD []).foldl
    (fun a q => appendProbe a agent.id "boundary" q) acc
  let agentDomains :=
    if agent.claimedDomains.length = 0 then inferPrimaryDomain agent
    else agent.claimedDomains
  agentDomains.foldl (fun a domainKey =>
    let normalized := normalizeDomain domainKey
    match getQuestions BoundaryQuestions normalized with
    | none => a
    | some questions =>
      questions.foldl (fun a q =>
        appendProbe a agent.id
          (if q.domain = normalized then "calibration" else "boundary") q) a) acc

/-- The generation phase of `GenerateProbes`, before the budget check. -/
def generateRawProbes (agents : List AgentDefinition) : List ProbeQuestion :=
  (agents.foldl agentStep ([], 0)).1

/-- The `priority` map of the budget check (a missing key reads as the
zero value 0, like `boundary`). -/
def priorityOf (t : String) : Nat :=
  if t = "boundary" then 0
  else if t = "refusal" then 1
  else if t = "overlap" then 2
  else if t = "calibration" then 3
  else 0

/-- `sort.SliceStable(probes, priority-less-than)`: the key takes only
the values 0..3, so the unique stable sorted result is the concatenation
of the original subsequences at each priority (permutation, sortedness
and tie-order preservation are proved below, which characterize
`sort.SliceStable`). -/
def prioritySort (ps : List ProbeQuestion) : List ProbeQuestion :=
  (ps.filter (fun p => priorityOf p.probeType = 0)) ++
  (ps.filter (fun p => priorityOf p.probeType = 1)) ++
  (ps.filter (fun p => priorityOf p.probeType = 2)) ++
  (ps.filter (fun p => priorityOf p.probeType = 3))

/-- `GenerateProbes(agents, budget)`: generation followed by the budget
check (each probe costs `1 + stochasticRuns = 6` calls; over budget, the
stably sorted list is truncated).  The Go budget is an `int`; all call
sites pass a non-negative budget, on which Go's truncated division
agrees with `Nat` division. -/
def GenerateProbes (agents : List AgentDefinition) (budget : Nat) : List ProbeQuestion :=
  let probes := generateRawProbes agents
  let stochasticRuns := 5
  let callsPerProbe := 1 + stochasticRuns
  let maxProbes := budget / callsPerProbe
  if probes.length > maxProbes then (prioritySort probes).take maxProbes else probes

theorem priorityOf_cases (t : String) :
    priorityOf t = 0 ∨ priorityOf t = 1 ∨ priorityOf t = 2 ∨ priorityOf t = 3 := by
  unfold priorityOf
  split_ifs <;> simp

theorem perm_insert_block (l1 l2 ps : List ProbeQuestion) (x : ProbeQuestion)
    (h : (l1 ++ l2).Perm ps) : (l1 ++ x :: l2).Perm (x :: ps) :=
  List.perm_middle.trans (h.cons x)

theorem prioritySort_perm (ps : List ProbeQuestion) : (prioritySort ps).Perm ps := by
  induction ps with
  | nil => simp [prioritySort]
  | cons x ps ih =>
    unfold prioritySort at ih ⊢
    rcases priorityOf_cases x.probeType with hk | hk | hk | hk <;>
      simp only [List.filter_cons, hk, decide_eq_true_eq] <;>
      norm_num
    · simpa [List.append_assoc] using ih
    · exact perm_insert_block _ _ _ _ (by simpa [List.append_assoc] using ih)
    · rw [← List.append_assoc]
      exact perm_insert_block _ _ _ _ (by simpa [List.append_assoc] using ih)
    · rw [← List.append_assoc, ← List.append_assoc]
      exact perm_insert_block _ _ _ _ (by simpa [List.append_assoc] using ih)

theorem pairwise_of_mem_mem {α : Type} (R : α → α → Prop) (l : List α)
    (h : ∀ a ∈ l, ∀ b ∈ l, R a b) : List.Pairwise R l := by
  induction l with
  | nil => exact List.Pairwise.nil
  | cons x xs ih =>
    refine List.pairwise_cons.mpr
      ⟨fun b hb => h x (List.mem_cons_self _ _) b (List.mem_cons_of_mem _ hb), ih ?_⟩
    intro a ha b hb
    exact h a (List.mem_cons_of_mem _ ha) b (List.mem_cons_of_mem _ hb)

theorem mem_filter_priority (ps : List ProbeQuestion) (k : Nat) (p : ProbeQuestion)
    (hp : p ∈ ps.filter (fun p => priorityOf p.probeType = k)) :
    priorityOf p.probeType = k := by
  have h := (List.mem_filter.mp hp).2
  simpa using h

theorem prioritySort_sorted (ps : List ProbeQuestion) :
    List.Pairwise (fun p q => priorityOf p.probeType ≤ priorityOf q.probeType)
      (prioritySort ps) := by
  unfold prioritySort
  have hall : ∀ j : Nat,
      List.Pairwise (fun p q => priorityOf p.probeType ≤ priorityOf q.probeType)
        (ps.filter (fun p => priorityOf p.probeType = j)) := by
    intro j
    exact pairwise_of_mem_mem _ _ (fun a ha b hb => by
      rw [mem_filter_priority _ _ _ ha, mem_filter_priority _ _ _ hb])
  refine List.pairwise_append.mpr ⟨List.pairwise_append.mpr
    ⟨List.pairwise_append.mpr ⟨hall 0, hall 1, ?_⟩, hall 2, ?_⟩, hall 3, ?_⟩
  · intro a ha b hb
    rw [mem_filter_priority _ _ _ ha, mem_filter_priority _ _ _ hb]
    norm_num
  · intro a ha b hb
    rcases List.mem_append.mp ha with ha' | ha' <;>
      rw [mem_filter_priority _ _ _ ha', mem_filter_priority _ _ _ hb] <;> norm_num
  · intro a ha b hb
    rcases List.mem_append.mp ha with ha' | ha'
    · rcases List.mem_append.mp ha' with ha'' | ha'' <;>
        rw [mem_filter_priority _ _ _ ha'', mem_filter_priority _ _ _ hb] <;> norm_num
    · rw [mem_filter_priority _ _ _ ha', mem_filter_priority _ _ _ hb]
      norm_num

theorem filter_priority_both (ps : List ProbeQuestion) (j k : Nat) :
    (ps.filter (fun p => priorityOf p.probeType = j)).filter
        (fun p => priorityOf p.probeType = k) =
      if j = k then ps.filter (fun p => priorityOf p.probeType = k) else [] := by
  split
  · next hjk =>
    subst hjk
    rw [List.filter_filter]
    apply List.filter_congr
    intro p _
    exact Bool.and_self _
  · next hjk =>
    rw [List.filter_eq_nil_iff]
    intro p hp
    have h1 := mem_filter_priority _ _ _ hp
    simp only [decide_eq_true_eq]
    omega

theorem prioritySort_stable (ps : List ProbeQuestion) (k : Nat) :
    (prioritySort ps).filter (fun p => priorityOf p.probeType = k) =
      ps.filter (fun p => priorityOf p.probeType = k) := by
  unfold prioritySort
  simp only [List.filter_append]
  rw [filter_priority_both ps 0 k, filter_priority_both ps 1 k,
    filter_priority_both ps 2 k, filter_priority_both ps 3 k]
  by_cases h0 : 0 = k
  · subst h0
    simp
  · by_cases h1 : 1 = k
    · subst h1
      simp
    · by_cases h2 : 2 = k
      · subst h2
        simp
      · by_cases h3 : 3 = k
        · subst h3
          simp
        · rw [if_neg h0, if_neg h1, if_neg h2, if_neg h3]
          simp only [List.append_nil, List.nil_append]
          rw [eq_comm, List.filter_eq_nil_iff]
          intro p _
          simp only [decide_eq_true_eq]
          rcases priorityOf_cases p.probeType with h | h | h | h <;> omega

/-- Every probe emitted by the generation phase is typed `boundary` or
`calibration`. -/
def TB (p : ProbeQuestion) : Prop :=
  p.probeType = "boundary" ∨ p.probeType = "calibration"

theorem mem_appendProbe (acc : List ProbeQuestion × Nat) (target ptype : String)
    (q : QuestionEntry) (p : ProbeQuestion)
    (hp : p ∈ (appendProbe acc target ptype q).1) :
    p ∈ acc.1 ∨ p.probeType = ptype := by
  unfold appendProbe at hp
  rcases List.mem_append.mp hp with h | h
  · exact Or.inl h
  · right
    rw [List.mem_singleton.mp h]

theorem generic_fold_TB (target : String) (qs : List QuestionEntry) :
    ∀ acc : List ProbeQuestion × Nat, (∀ p ∈ acc.1, TB p) →
      ∀ p ∈ (qs.foldl (fun a q => appendProbe a target "boundary" q) acc).1, TB p := by
  induction qs with
  | nil => exact fun acc h => h
  | cons q qs ih =>
    intro acc h
    simp only [List.foldl_cons]
    refine ih _ ?_
    intro p hp
    rcases mem_appendProbe _ _ _ _ _ hp with h1 | h2
    · exact h p h1
    · exact Or.inl h2

theorem bank_fold_TB (target normalized : String) (qs : List QuestionEntry) :
    ∀ acc : List ProbeQuestion × Nat, (∀ p ∈ acc.1, TB p) →
      ∀ p ∈ (qs.foldl (fun a q =>
        appendProbe a target
          (if q.domain = normalized then "calibration" else "boundary") q) acc).1, TB p := by
  induction qs with
  | nil => exact fun acc h => h
  | cons q qs ih =>
    intro acc h
    simp only [List.foldl_cons]
    refine ih _ ?_
    intro p hp
    rcases mem_appendProbe _ _ _ _ _ hp with h1 | h2
    · exact h p h1
    · by_cases hd : q.domain = normalized
      · rw [if_pos hd] at h2
        exact Or.inr h2
      · rw [if_neg hd] at h2
        exact Or.inl h2

theorem domains_fold_TB (target : String) (domains : List String) :
    ∀ acc : List ProbeQuestion × Nat, (∀ p ∈ acc.1, TB p) →
      ∀ p ∈ (domains.foldl (fun a domainKey =>
        let normalized := normalizeDomain domainKey
        match getQuestions BoundaryQuestions normalized with
        | none => a
        | some questions =>
          questions.foldl (fun a q =>
            appendProbe a target
              (if q.domain = normalized then "calibration" else "boundary") q) a) acc).1,
        TB p := by
  induction domains with
  | nil => exact fun acc h => h
  | cons d rest ih =>
    intro acc h
    simp only [List.foldl_cons]
    refine ih _ ?_
    rcases hq : getQuestions BoundaryQuestions (normalizeDomain d) with _ | questions
    · simp only [hq]
      exact h
    · simp only [hq]
      exact bank_fold_TB _ _ _ _ h

theorem agentStep_TB (agent : AgentDefinition) (acc : List ProbeQuestion × Nat)
    (h : ∀ p ∈ acc.1, TB p) : ∀ p ∈ (agentStep acc agent).1, TB p := by
  unfold agentStep
  exact domains_fold_TB _ _ _ (generic_fold_TB _ _ _ h)

theorem generateRawProbes_TB (agents : List AgentDefinition) :
    ∀ p ∈ generateRawProbes agents, TB p := by
  unfold generateRawProbes
  suffices h : ∀ acc : List ProbeQuestion × Nat, (∀ p ∈ acc.1, TB p) →
      ∀ p ∈ (agents.foldl agentStep acc).1, TB p by
    exact h ([], 0) (fun p hp => absurd hp (List.not_mem_nil p))
  induction agents with
  | nil => exact fun acc h => h
  | cons a rest ih =>
    intro acc h
    simp only [List.foldl_cons]
    exact ih _ (agentStep_TB a acc h)

/-- C3: whenever the generated probe count exceeds `budget / 6` (each
probe costs `1 + stochasticRuns = 6` calls), `GenerateProbes` returns
the first `budget / 6` elements of the stable priority sort of the
generated list — a permutation of it, sorted by the fixed priority
`boundary < refusal < overlap < calibration`, preserving original order
within each priority class — and consequently a boundary-typed probe is
never dropped while a calibration-typed probe is kept. -/
theorem generateProbes_budget_spec (agents : List AgentDefinition) (budget : Nat)
    (hover : (generateRawProbes agents).length > budget / 6) :
    GenerateProbes agents budget =
      (prioritySort (generateRawProbes agents)).take (budget / 6) ∧
    (prioritySort (generateRawProbes agents)).Perm (generateRawProbes agents) ∧
    List.Pairwise (fun p q => priorityOf p.probeType ≤ priorityOf q.probeType)
      (prioritySort (generateRawProbes agents)) ∧
    (∀ k : Nat, (prioritySort (generateRawProbes agents)).filter
        (fun p => priorityOf p.probeType = k) =
      (generateRawProbes agents).filter (fun p => priorityOf p.probeType = k)) ∧
    (∀ p ∈ GenerateProbes agents budget, p.probeType = "calibration" →
      ∀ q ∈ generateRawProbes agents, q.probeType = "boundary" →
        q ∈ GenerateProbes agents budget) := by
  have heq : GenerateProbes agents budget =
      (prioritySort (generateRawProbes agents)).take (budget / 6) := by
    unfold GenerateProbes
    simp only
    rw [if_pos hover]
  refine ⟨heq, prioritySort_perm _, prioritySort_sorted _, prioritySort_stable _, ?_⟩
  intro p hp hcal q hq hqb
  rw [heq] at hp ⊢
  have hf1 : (generateRawProbes agents).filter
      (fun p => priorityOf p.probeType = 1) = [] := by
    rw [List.filter_eq_nil_iff]
    intro x hx
    rcases generateRawProbes_TB agents x hx with h | h <;> simp [priorityOf, h]
  have hf2 : (generateRawProbes agents).filter
      (fun p => priorityOf p.probeType = 2) = [] := by
    rw [List.filter_eq_nil_iff]
    intro x hx
    rcases generateRawProbes_TB agents x hx with h | h <;> simp [priorityOf, h]
  have hsorted : prioritySort (generateRawProbes agents) =
      (generateRawProbes agents).filter (fun p => priorityOf p.probeType = 0) ++
      (generateRawProbes agents).filter (fun p => priorityOf p.probeType = 3) := by
    unfold prioritySort
    rw [hf1, hf2]
    simp
  rw [hsorted] at hp ⊢
  have hp3 : priorityOf p.probeType = 3 := by rw [hcal]; decide
  rw [List.take_append_eq_append_take] at hp
  rcases List.mem_append.mp hp with h | h
  · have hmem := List.mem_of_mem_take h
    have h0 := mem_filter_priority _ _ _ hmem
    omega
  · have hne := List.ne_nil_of_mem h
    have hlen : 0 < (List.take
        (budget / 6 - ((generateRawProbes agents).filter
          (fun p => priorityOf p.probeType = 0)).length)
        ((generateRawProbes agents).filter
          (fun p => priorityOf p.probeType = 3))).length :=
      List.length_pos.mpr hne
    rw [List.length_take] at hlen
    have hn : ((generateRawProbes agents).filter
        (fun p => priorityOf p.probeType = 0)).length ≤ budget / 6 := by omega
    have hq0 : q ∈ (generateRawProbes agents).filter
        (fun p => priorityOf p.probeType = 0) :=
      List.mem_filter.mpr ⟨hq, by rw [hqb]; decide⟩
    rw [List.take_append_eq_append_take]
    refine List.mem_append_left _ ?_
    rwa [List.take_of_length_le hn]

/-- Witness for C3: 3 agents claiming `frontend` generate 18 probes;
with budget 12 (2 complete probes) the output is the 2-element prefix of
the stable priority sort. -/
theorem generateProbes_budget_spec_witness :
    GenerateProbes
      [⟨"a1", "", "", [], [], ["frontend"]⟩, ⟨"a2", "", "", [], [], ["frontend"]⟩,
        ⟨"a3", "", "", [], [], ["frontend"]⟩] 12 =
      (prioritySort (generateRawProbes
        [⟨"a1", "", "", [], [], ["frontend"]⟩, ⟨"a2", "", "", [], [], ["frontend"]⟩,
          ⟨"a3", "", "", [], [], ["frontend"]⟩])).take 2 := by
  have h := (generateProbes_budget_spec
    [⟨"a1", "", "", [], [], ["frontend"]⟩, ⟨"a2", "", "", [], [], ["frontend"]⟩,
      ⟨"a3", "", "", [], [], ["frontend"]⟩] 12 (by decide)).1
  simpa using h

/-- Parsed signals of one model reply (`probes.ParsedResponse`).  The
parser itself (`ParseProbeResponse`) is a table of compiled regular
expressions evaluated by Go's regexp engine; the runner below is
parameterized over it, since claim C1 holds for every parser. -/
structure ParsedResponse where
  confidence : Option ℚ
  hedgingScore : ℚ
  isRefusal : Bool

/-- The observable outcome of one `client.Complete` call: a reply text,
a returned Go error, or an unexpected runtime fault (panic) raised while
the call or its handling executes. -/
inductive CallOutcome where
  | ok (text : String)
  | err (msg : String)
  | fault (msg : String)
deriving DecidableEq

/-- The record built for call `i` of one probe: call 0 is the
deterministic run at temperature 0, calls `1..stochasticRuns` are
stochastic at temperature 0.7; a returned error is logged on the record,
a fault aborts the task body (Go panic unwinding). -/
def responseAt (parse : String → ParsedResponse) (calls : Nat → CallOutcome) (i : Nat) :
    Except String ResponseRecord :=
  match calls i with
  | .fault msg => .error msg
  | .err msg =>
    if i = 0 then .ok ⟨0, 0, none, 0, false, "", msg⟩
    else .ok ⟨i, 7/10, none, 0, false, "", msg⟩
  | .ok text =>
    let parsed := parse text
    if i = 0 then
      .ok ⟨0, 0, parsed.confidence, parsed.hedgingScore, parsed.isRefusal, text, ""⟩
    else
      .ok ⟨i, 7/10, parsed.confidence, parsed.hedgingScore, parsed.isRefusal, text, ""⟩

/-- The response list gathered by one task body (calls 0 through
`stochasticRuns`, in order); the first fault unwinds the body, losing
the responses gathered so far. -/
def collectResponses (parse : String → ParsedResponse) (calls : Nat → CallOutcome)
    (stochasticRuns : Nat) : Except String (List ResponseRecord) :=
  (List.range (stochasticRuns + 1)).foldl
    (fun acc i =>
      match acc with
      | .error e => .error e
      | .ok rs =>
        match responseAt parse calls i with
        | .error e => .error e
        | .ok r => .ok (rs ++ [r]))
    (.ok [])

/-- The detail the deferred `recover` records for a panicked task: the
probe's fields and a single synthetic response whose `Error` is
`"panic: <value>"` (all other fields zero). -/
def syntheticDetail (probe : ProbeQuestion) (msg : String) : ProbeDetail :=
  ⟨probe.id, probe.text, probe.domain, probe.probeType, probe.expectedBehavior,
    [⟨0, 0, none, 0, false, "", "panic: " ++ msg⟩]⟩

/-- One probe task, fault boundary included: a normal completion appends
the collected responses; a fault produces the synthetic detail. -/
def runProbeTask (parse : String → ParsedResponse) (calls : Nat → CallOutcome)
    (stochasticRuns : Nat) (probe : ProbeQuestion) : ProbeDetail :=
  match collectResponses parse calls stochasticRuns with
  | .ok responses =>
    ⟨probe.id, probe.text, probe.domain, probe.probeType, probe.expectedBehavior, responses⟩
  | .error msg => syntheticDetail probe msg

/-- The shared state guarded by the runner's mutex: the per-agent results
map, the completed counter and the log of progress-callback invocations
`(done, total, agentID, probeID)`.  The global call counter is omitted:
no claim under verification concerns it. -/
structure RunState where
  results : List (String × AgentProbeResults)
  completed : Nat
  progressLog : List (Nat × Nat × String × String)

/-- `results[aid].ProbesRun++; append(results[aid].Details, detail)`. -/
def updateResults (results : List (String × AgentProbeResults)) (aid : String)
    (detail : ProbeDetail) : List (String × AgentProbeResults) :=
  match results with
  | [] => []
  | (k, r) :: rest =>
    if k = aid then
      (k, { r with probesRun := r.probesRun + 1, details := r.details ++ [detail] }) :: rest
    else (k, r) :: updateResults rest aid detail

/-- Processing of one submitted question: skipped when its target agent
is not in the loaded set; otherwise its task's detail is appended under
the mutex and the progress callback fires once. -/
def processQuestion (parse : String → ParsedResponse)
    (client : ProbeQuestion → Nat → CallOutcome) (sr : Nat)
    (agents : List AgentDefinition) (total : Nat) (st : RunState)
    (q : ProbeQuestion) : RunState :=
  if agents.any (fun a => a.id = q.targetAgent) then
    let detail := runProbeTask parse (client q) sr q
    { results := updateResults st.results q.targetAgent detail
      completed := st.completed + 1
      progressLog := st.progressLog ++ [(st.completed + 1, total, q.targetAgent, q.id)] }
  else st

/-- `RunLiveProbes`: defaults applied (`StochasticRuns = 0 → 5`), results
initialized for every agent, every question processed behind the mutex,
then the single-threaded scoring pass.  The concurrency of the Go code
is linearized: the mutex serializes every mutation of the shared state,
and the claims proved below are per-probe counts and contents, which are
the same in every completion order (batch delay and the concurrency
semaphore affect only timing). -/
def RunLiveProbes (parse : String → ParsedResponse) (agents : List AgentDefinition)
    (questions : List ProbeQuestion) (client : ProbeQuestion → Nat → CallOutcome)
    (stochasticRuns : Nat) : RunState :=
  let sr := if stochasticRuns = 0 then 5 else stochasticRuns
  let init : RunState :=
    ⟨agents.map (fun a => (a.id, ⟨a.id, 0, 0, 0, 0, 0, []⟩)), 0, []⟩
  let finalSt := questions.foldl (processQuestion parse client sr agents questions.length) init
  { finalSt with results := finalSt.results.map (fun p => (p.1, ScoreAgentProbes p.2)) }

/-- First-match lookup in the results map. -/
def lookupResults (results : List (String × AgentProbeResults)) (aid : String) :
    Option AgentProbeResults :=
  match results with
  | [] => none
  | (k, r) :: rest => if k = aid then some r else lookupResults rest aid

theorem lookupResults_updateResults_self (results : List (String × AgentProbeResults))
    (aid : String) (detail : ProbeDetail) (r : AgentProbeResults)
    (h : lookupResults results aid = some r) :
    lookupResults (updateResults results aid detail) aid =
      some { r with probesRun := r.probesRun + 1, details := r.details ++ [detail] } := by
  induction results with
  | nil => cases h
  | cons p rest ih =>
    obtain ⟨k, r'⟩ := p
    by_cases hk : k = aid
    · simp only [updateResults, hk, if_pos rfl, lookupResults]
      simp only [lookupResults, if_pos rfl] at *
      rw [if_pos hk] at h
      cases h
      rfl
    · simp only [updateResults, hk, if_false, lookupResults]
      simp only [lookupResults, if_neg hk] at h
      exact ih h

theorem lookupResults_updateResults_ne (results : List (String × AgentProbeResults))
    (aid aid' : String) (detail : ProbeDetail) (h : aid' ≠ aid) :
    lookupResults (updateResults results aid detail) aid' =
      lookupResults results aid' := by
  induction results with
  | nil => rfl
  | cons p rest ih =>
    obtain ⟨k, r'⟩ := p
    by_cases hk : k = aid
    · subst hk
      simp only [updateResults, if_pos rfl, lookupResults]
      rw [if_neg (fun hh => h (hh.symm)), if_neg (fun hh => h (hh.symm))]
    · simp only [updateResults, hk, if_false, lookupResults]
      by_cases hk' : k = aid'
      · rw [if_pos hk', if_pos hk']
      · rw [if_neg hk', if_neg hk']
        exact ih

theorem lookupResults_init (agents : List AgentDefinition) (aid : String)
    (hin : agents.any (fun a => a.id = aid) = true) :
    lookupResults (agents.map (fun a => (a.id, (⟨a.id, 0, 0, 0, 0, 0, []⟩ : AgentProbeResults))))
      aid = some ⟨aid, 0, 0, 0, 0, 0, []⟩ := by
  induction agents with
  | nil => cases hin
  | cons a rest ih =>
    by_cases hk : a.id = aid
    · simp [List.map_cons, lookupResults, hk]
    · simp only [List.map_cons, lookupResults, if_neg hk]
      refine ih ?_
      simp only [List.any_cons, Bool.or_eq_true, decide_eq_true_eq] at hin
      rcases hin with h | h
      · exact absurd h hk
      · exact h

theorem lookupResults_map_score (results : List (String × AgentProbeResults)) (aid : String) :
    lookupResults (results.map (fun p => (p.1, ScoreAgentProbes p.2))) aid =
      (lookupResults results aid).map ScoreAgentProbes := by
  induction results with
  | nil => rfl
  | cons p rest ih =>
    obtain ⟨k, r⟩ := p
    by_cases hk : k = aid
    · simp only [List.map_cons, lookupResults, if_pos hk]
      rfl
    · simp only [List.map_cons, lookupResults, if_neg hk]
      exact ih

theorem scoreAgentProbes_preserves (r : AgentProbeResults) :
    (ScoreAgentProbes r).details = r.details ∧
    (ScoreAgentProbes r).probesRun = r.probesRun := by
  unfold ScoreAgentProbes
  split
  · exact ⟨rfl, rfl⟩
  · exact ⟨rfl, rfl⟩

theorem fold_processQuestion_lookup (parse : String → ParsedResponse)
    (client : ProbeQuestion → Nat → CallOutcome) (sr : Nat)
    (agents : List AgentDefinition) (total : Nat) (aid : String)
    (hin : agents.any (fun a => a.id = aid) = true) (qs : List ProbeQuestion) :
    ∀ (st : RunState) (r : AgentProbeResults),
      lookupResults st.results aid = some r →
      lookupResults ((qs.foldl (processQuestion parse client sr agents total) st).results)
          aid =
        some { r with
          probesRun := r.probesRun + (qs.filter (fun q => q.targetAgent = aid)).length
          details := r.details ++ (qs.filter (fun q => q.targetAgent = aid)).map
            (fun q => runProbeTask parse (client q) sr q) } := by
  induction qs with
  | nil =>
    intro st r h
    simpa using h
  | cons q qs ih =>
    intro st r h
    simp only [List.foldl_cons]
    by_cases ht : q.targetAgent = aid
    · have hany : agents.any (fun a => a.id = q.targetAgent) = true := by
        rw [ht]; exact hin
      have hstep : lookupResults ((processQuestion parse client sr agents total st q).results)
          aid = some { r with
            probesRun := r.probesRun + 1
            details := r.details ++ [runProbeTask parse (client q) sr q] } := by
        unfold processQuestion
        rw [if_pos hany]
        simp only
        rw [← ht] at h ⊢
        exact lookupResults_updateResults_self _ _ _ _ h
      have hrec := ih _ _ hstep
      rw [hrec]
      have hfc : List.filter (fun q' => decide (q'.targetAgent = aid)) (q :: qs) =
          q :: List.filter (fun q' => decide (q'.targetAgent = aid)) qs :=
        List.filter_cons_of_pos (by simp [ht])
      rw [hfc]
      simp only [List.length_cons, List.map_cons, Option.some.injEq,
        AgentProbeResults.mk.injEq, true_and]
      refine ⟨by omega, by simp [List.append_assoc]⟩
    · have hstep : lookupResults ((processQuestion parse client sr agents total st q).results)
          aid = some r := by
        unfold processQuestion
        split
        · simp only
          rw [lookupResults_updateResults_ne _ _ _ _ (fun hh => ht hh.symm)]
          exact h
        · exact h
      have hrec := ih _ _ hstep
      rw [hrec]
      have hfc : List.filter (fun q' => decide (q'.targetAgent = aid)) (q :: qs) =
          List.filter (fun q' => decide (q'.targetAgent = aid)) qs :=
        List.filter_cons_of_neg (by simp [ht])
      rw [hfc]

theorem fold_processQuestion_progress (parse : String → ParsedResponse)
    (client : ProbeQuestion → Nat → CallOutcome) (sr : Nat)
    (agents : List AgentDefinition) (total : Nat) (qs : List ProbeQuestion) :
    ∀ st : RunState,
      ((qs.foldl (processQuestion parse client sr agents total) st).progressLog).map
          (fun e => e.2.2.2) =
        st.progressLog.map (fun e => e.2.2.2) ++
          (qs.filter (fun q => agents.any (fun a => a.id = q.targetAgent))).map
            (fun q => q.id) := by
  induction qs with
  | nil => intro st; simp
  | cons q qs ih =>
    intro st
    simp only [List.foldl_cons]
    rw [ih]
    by_cases hany : agents.any (fun a => a.id = q.targetAgent) = true
    · have hpl : (processQuestion parse client sr agents total st q).progressLog =
          st.progressLog ++ [(st.completed + 1, total, q.targetAgent, q.id)] := by
        unfold processQuestion
        rw [if_pos hany]
      rw [hpl]
      simp [List.filter_cons, hany]
    · have hpl : (processQuestion parse client sr agents total st q).progressLog =
          st.progressLog := by
        unfold processQuestion
        rw [if_neg hany]
      rw [hpl]
      have hfalse : (agents.any (fun a => a.id = q.targetAgent)) = false :=
        Bool.eq_false_iff.mpr hany
      simp [List.filter_cons, hfalse]

theorem runProbeTask_fault (parse : String → ParsedResponse)
    (calls : Nat → CallOutcome) (sr : Nat) (probe : ProbeQuestion) (msg : String)
    (h : collectResponses parse calls sr = .error msg) :
    runProbeTask parse calls sr probe = syntheticDetail probe msg ∧
    (syntheticDetail probe msg).responses.length = 1 ∧
    ∀ rr ∈ (syntheticDetail probe msg).responses, rr.error ≠ "" := by
  refine ⟨by unfold runProbeTask; rw [h], rfl, ?_⟩
  intro rr hrr
  rw [List.mem_singleton.mp hrr]
  intro hempty
  have hdata := congrArg String.data hempty
  rw [String.data_append] at hdata
  cases hdata

/-- C1: in the linearized runner model, for every agent present in the
loaded set, each submitted probe targeting it contributes exactly one
`ProbeDetail` — the output of its own task, so faults in other probes
cannot affect it — and exactly one `ProbesRun` increment; the progress
callback fires exactly once per processed probe, in order; and a task
whose calls fault produces the synthetic detail: a single response whose
error string (`"panic: ..."`) is non-empty. -/
theorem runLiveProbes_accounting (parse : String → ParsedResponse)
    (agents : List AgentDefinition) (questions : List ProbeQuestion)
    (client : ProbeQuestion → Nat → CallOutcome) (stochasticRuns : Nat)
    (aid : String) (hin : agents.any (fun a => a.id = aid) = true) :
    (∃ r, lookupResults
        (RunLiveProbes parse agents questions client stochasticRuns).results aid = some r ∧
      r.probesRun = (questions.filter (fun q => q.targetAgent = aid)).length ∧
      r.details = (questions.filter (fun q => q.targetAgent = aid)).map
        (fun q => runProbeTask parse (client q)
          (if stochasticRuns = 0 then 5 else stochasticRuns) q)) ∧
    ((RunLiveProbes parse agents questions client stochasticRuns).progressLog.map
        (fun e => e.2.2.2) =
      (questions.filter (fun q => agents.any (fun a => a.id = q.targetAgent))).map
        (fun q => q.id)) ∧
    (∀ probe msg,
      collectResponses parse (client probe)
          (if stochasticRuns = 0 then 5 else stochasticRuns) = .error msg →
      runProbeTask parse (client probe)
          (if stochasticRuns = 0 then 5 else stochasticRuns) probe =
        syntheticDetail probe msg ∧
      (syntheticDetail probe msg).responses.length = 1 ∧
      ∀ rr ∈ (syntheticDetail probe msg).responses, rr.error ≠ "") := by
  refine ⟨?_, ?_, fun probe msg h => runProbeTask_fault parse (client probe) _ probe msg h⟩
  · have hacc := fold_processQuestion_lookup parse client
      (if stochasticRuns = 0 then 5 else stochasticRuns) agents questions.length aid hin
      questions ⟨agents.map (fun a => (a.id, ⟨a.id, 0, 0, 0, 0, 0, []⟩)), 0, []⟩
      ⟨aid, 0, 0, 0, 0, 0, []⟩ (lookupResults_init agents aid hin)
    refine ⟨ScoreAgentProbes { (⟨aid, 0, 0, 0, 0, 0, []⟩ : AgentProbeResults) with
        probesRun := 0 + (questions.filter (fun q => q.targetAgent = aid)).length
        details := [] ++ (questions.filter (fun q => q.targetAgent = aid)).map
          (fun q => runProbeTask parse (client q)
            (if stochasticRuns = 0 then 5 else stochasticRuns) q) }, ?_, ?_, ?_⟩
    · unfold RunLiveProbes
      simp only
      rw [lookupResults_map_score, hacc]
      rfl
    · rw [(scoreAgentProbes_preserves _).2]
      simp
    · rw [(scoreAgentProbes_preserves _).1]
      simp
  · unfold RunLiveProbes
    simp only
    rw [fold_processQuestion_progress]
    simp

/-- Witness for C1, mirroring the repository's panic-recovery test: one
agent, two probes, one probe's client calls fault; both probes are
accounted and the faulted one records the synthetic single-error
response. -/
theorem runLiveProbes_accounting_witness :
    (∃ r, lookupResults
        (RunLiveProbes (fun _ => ⟨none, 0, false⟩)
          [⟨"agent1", "", "You are a test agent.", [], [], []⟩]
          [⟨"panic-probe", "TRIGGER", "agent1", "testing", "boundary", "hedge"⟩,
            ⟨"normal-probe", "What is Go?", "agent1", "backend", "calibration", "answer"⟩]
          (fun q _ => if q.id = "panic-probe" then CallOutcome.fault "simulated crash"
            else CallOutcome.ok "ok")
          1).results "agent1" = some r ∧
      r.probesRun = 2) ∧
    runProbeTask (fun _ => ⟨none, 0, false⟩)
        ((fun (q : ProbeQuestion) (_ : Nat) =>
            if q.id = "panic-probe" then CallOutcome.fault "simulated crash"
            else CallOutcome.ok "ok")
          ⟨"panic-probe", "TRIGGER", "agent1", "testing", "boundary", "hedge"⟩) 1
        ⟨"panic-probe", "TRIGGER", "agent1", "testing", "boundary", "hedge"⟩ =
      syntheticDetail ⟨"panic-probe", "TRIGGER", "agent1", "testing", "boundary", "hedge"⟩
        "simulated crash" := by
  constructor
  · obtain ⟨r, hr, hcount, _⟩ := (runLiveProbes_accounting (fun _ => ⟨none, 0, false⟩)
      [⟨"agent1", "", "You are a test agent.", [], [], []⟩]
      [⟨"panic-probe", "TRIGGER", "agent1", "testing", "boundary", "hedge"⟩,
        ⟨"normal-probe", "What is Go?", "agent1", "backend", "calibration", "answer"⟩]
      (fun q _ => if q.id = "panic-probe" then CallOutcome.fault "simulated crash"
        else CallOutcome.ok "ok")
      1 "agent1" (by decide)).1
    exact ⟨r, hr, by rw [hcount]; decide⟩
  · exact ((runLiveProbes_accounting (fun _ => ⟨none, 0, false⟩)
      [⟨"agent1", "", "You are a test agent.", [], [], []⟩]
      [⟨"panic-probe", "TRIGGER", "agent1", "testing", "boundary", "hedge"⟩,
        ⟨"normal-probe", "What is Go?", "agent1", "backend", "calibration", "answer"⟩]
      (fun q _ => if q.id = "panic-probe" then CallOutcome.fault "simulated crash"
        else CallOutcome.ok "ok")
      1 "agent1" (by decide)).2.2
      ⟨"panic-probe", "TRIGGER", "agent1", "testing", "boundary", "hedge"⟩
      "simulated crash" (by rfl)).1

end AgentEvals
